import Mathlib

/-!
# go-redmine: request building, response handling and pagination traversal

A shallow embedding of `client.go` and `project.go`.

* Go `int` is the 64-bit two's-complement integer: values are carried as `Int`
  and every arithmetic result is reduced by `wrapInt`.
* Go `error` values are carried by their message (`String`); the pair
  `(value, error)` a Go function returns is an `Except String value`.
* The embedded `*http.Client` is the `Wire`: a scripted exchange that answers
  the k-th request performed on it and keeps the record of what was sent.
* The parts of the Go standard library the code calls (`url.Parse`,
  `URL.String`, `encoding/json`) are the fields of `Env`.
-/

namespace Redmine

/-! ## Go `int` -/

/-- Smallest value of a Go `int` (64-bit). -/
def intMin : Int := -9223372036854775808

/-- Largest value of a Go `int` (64-bit). -/
def intMax : Int := 9223372036854775807

/-- Two's-complement reduction of an arithmetic result to a Go `int`. -/
def wrapInt (x : Int) : Int :=
  (x + 9223372036854775808) % 18446744073709551616 - 9223372036854775808

/-- Decimal rendering, `strconv.Itoa`. -/
def Itoa (n : Int) : String :=
  if n < 0 then "-" ++ Nat.repr n.natAbs else Nat.repr n.toNat

/-- Concatenation with a separator, `strings.Join`. -/
def Join (elems : List String) (sep : String) : String :=
  sep.intercalate elems

/-! ## Data model (`client.go`, `project.go`) -/

/-- Record `Client` of `client.go`; the embedded `*http.Client` is the `Wire`
that the operations thread through. -/
structure Client where
  endpoint : String
  apikey : String
  switchUser : String
  Limit : Int
  Offset : Int
  deriving DecidableEq, Repr

/-- Record `FullTraversingClient`: a `Client` that traverses pagination. -/
structure FullTraversingClient where
  Client : Client
  deriving DecidableEq, Repr

def DefaultLimit : Int := -1

def DefaultOffset : Int := -1

def NewClient (endpoint apikey : String) : Client :=
  ⟨endpoint, apikey, "", DefaultLimit, DefaultOffset⟩

def NewFullTraversingClient (endpoint apikey : String) : FullTraversingClient :=
  ⟨⟨endpoint, apikey, "", 100, 0⟩⟩

structure errorsResult where
  Errors : List String
  deriving DecidableEq, Repr

structure IdName where
  Id : Int
  Name : String
  deriving DecidableEq, Repr

structure pagination where
  TotalCount : Int
  Limit : Int
  Offset : Int
  deriving DecidableEq, Repr

/-- Modelled from the spec: the type `CustomField` is declared outside the
provided sources; the spec speaks of an "optional list of custom-field
values" without naming their fields, so a value is carried as its text. -/
structure CustomField where
  Value : String
  deriving DecidableEq, Repr

structure Project where
  Id : Int
  Parent : IdName
  Name : String
  Identifier : String
  Description : String
  CreatedOn : String
  UpdatedOn : String
  CustomFields : List CustomField
  deriving DecidableEq, Repr

structure projectRequest where
  Project : Project
  deriving DecidableEq, Repr

structure projectResult where
  Project : Project
  deriving DecidableEq, Repr

structure projectsResult where
  Projects : List Project
  pagination : pagination
  deriving DecidableEq, Repr

/-- Promoted field `TotalCount` of the embedded `pagination`. -/
def projectsResult.TotalCount (r : projectsResult) : Int := r.pagination.TotalCount

/-- Modelled from the spec: the filter builder (`Filter`, `AddPair`) is
declared outside the provided sources: it "accumulates key/value query-string
pairs" and is "mutated additively". -/
structure Filter where
  pairs : List (String × String)
  deriving DecidableEq, Repr

/-- Modelled from the spec: `AddPair` of the filter builder, which adds one
key/value pair to the accumulated pairs. -/
def Filter.AddPair (f : Filter) (key value : String) : Filter :=
  ⟨f.pairs ++ [(key, value)]⟩

structure ProjectsFilter where
  Filter : Filter
  deriving DecidableEq, Repr

def NewProjectsFilter : ProjectsFilter := ⟨⟨[]⟩⟩

def ProjectStatusAll : String := ""
def ProjectStatusActive : String := "1"
def ProjectStatusClosed : String := "5"
def ProjectStatusArchived : String := "9"

def ProjectsFilter.Status (psf : ProjectsFilter) (status : String) : ProjectsFilter :=
  ⟨psf.Filter.AddPair "status" status⟩

def ProjectsFilter.StatusNot (psf : ProjectsFilter) (status : String) : ProjectsFilter :=
  ⟨psf.Filter.AddPair "status" ("!" ++ status)⟩

/-! ## HTTP -/

/-- Fields of `url.URL` the code reads or writes, the remaining ones kept
together in `Scheme` and `Host`. -/
structure URL where
  Scheme : String
  Host : String
  Path : String
  RawQuery : String
  deriving DecidableEq, Repr

/-- Header of a request: the values in the order they were added. -/
abbrev Header := List (String × String)

/-- Append a value under a key, `Header.Add`. -/
def Header.Add (h : Header) (key value : String) : Header := h ++ [(key, value)]

/-- Replace the values under a key by one value, `Header.Set`. -/
def Header.Set (h : Header) (key value : String) : Header :=
  h.filter (fun p => p.1 ≠ key) ++ [(key, value)]

structure Request where
  Method : String
  URL : String
  Header : Header
  Body : String
  deriving DecidableEq, Repr

structure Response where
  StatusCode : Int
  Body : String
  deriving DecidableEq, Repr

/-- What the code imports and the sources do not define: the Go standard
library (`url.Parse`, `URL.String`, `json.Marshal`, `json.Decoder.Decode` at
each target type) and the rendering of a filter into a query string. -/
structure Env where
  Parse : String → Except String URL
  URLString : URL → String
  ToURLParams : Filter → String
  Marshal : projectRequest → Except String String
  DecodeErrors : String → Except String errorsResult
  DecodeProject : String → Except String projectResult
  DecodeProjectRequest : String → Except String projectRequest
  DecodeProjects : String → Except String projectsResult

/-- The underlying `*http.Client`: `script k req` is the outcome of the
exchange when `req` is the k-th request performed (counting from 0), `sent`
the requests performed so far. -/
structure Wire where
  script : Nat → Request → Except String Response
  sent : List Request

/-- Exchange of one request on the underlying client, `http.Client.Do`. -/
def Wire.Do (w : Wire) (req : Request) : Except String Response × Wire :=
  (w.script w.sent.length req, { w with sent := w.sent ++ [req] })

/-- Request constructor `http.NewRequest`: fails when the URL does not parse. -/
def NewRequest (σ : Env) (method url body : String) : Except String Request :=
  match σ.Parse url with
  | .error e => .error e
  | .ok _ => .ok ⟨method, url, [], body⟩

/-- Method `http.Client.Get` of the embedded client. -/
def Wire.Get (σ : Env) (w : Wire) (url : String) : Except String Response × Wire :=
  match NewRequest σ "GET" url "" with
  | .error e => (.error e, w)
  | .ok req => w.Do req

/-! ## `client.go` -/

/-- The filter as it stands when `URLWithFilter` renders it: the limit and
offset pairs are added when the fields are above -1. -/
def Client.paginate (c : Client) (f : Filter) : Filter :=
  let f := if c.Limit > -1 then f.AddPair "limit" (Itoa c.Limit) else f
  let f := if c.Offset > -1 then f.AddPair "offset" (Itoa c.Offset) else f
  f

def Client.URLWithFilter (σ : Env) (c : Client) (path : String) (f : Filter) :
    Except String String :=
  match σ.Parse c.endpoint with
  | .error err => .error err
  | .ok fullURL =>
    let fullURL := { fullURL with Path := fullURL.Path ++ path }
    let f := c.paginate f
    let fullURL := { fullURL with RawQuery := σ.ToURLParams f }
    .ok (σ.URLString fullURL)

def Client.SwitchUser (c : Client) (userLogin : String) : Client :=
  { c with switchUser := userLogin }

/-- The request as `Client.Do` hands it to the underlying client. -/
def Client.outgoing (c : Client) (req : Request) : Request :=
  let req := { req with Header := Header.Add req.Header "X-Redmine-API-Key" c.apikey }
  if c.switchUser ≠ "" then
    { req with Header := Header.Add req.Header "X-Redmine-Switch-User" c.switchUser }
  else req

def Client.Do (c : Client) (w : Wire) (req : Request) : Except String Response × Wire :=
  w.Do (c.outgoing req)

/-! ## `project.go` -/

def Client.Project (σ : Env) (c : Client) (id : Int) (w : Wire) :
    Except String Project × Wire :=
  match w.Get σ (c.endpoint ++ "/projects/" ++ Itoa id ++ ".json?key=" ++ c.apikey) with
  | (.error err, w) => (.error err, w)
  | (.ok res, w) =>
    let r : Except String projectResult :=
      if res.StatusCode ≠ 200 then
        match σ.DecodeErrors res.Body with
        | .error err => .error err
        | .ok er => .error (Join er.Errors "\n")
      else σ.DecodeProject res.Body
    match r with
    | .error err => (.error err, w)
    | .ok r => (.ok r.Project, w)

def Client.getProjects (σ : Env) (c : Client) (filter : ProjectsFilter) (w : Wire) :
    Except String projectsResult × Wire :=
  match c.URLWithFilter σ "/projects.json" filter.Filter with
  | .error err => (.error err, w)
  | .ok uri =>
    match NewRequest σ "GET" uri "" with
    | .error err => (.error err, w)
    | .ok req =>
      let req := { req with Header := Header.Add req.Header "X-Redmine-API-Key" c.apikey }
      match c.Do w req with
      | (.error err, w) => (.error err, w)
      | (.ok res, w) =>
        let r : Except String projectsResult :=
          if res.StatusCode ≠ 200 then
            match σ.DecodeErrors res.Body with
            | .error err => .error err
            | .ok er => .error (Join er.Errors "\n")
          else σ.DecodeProjects res.Body
        match r with
        | .error err => (.error err, w)
        | .ok r => (.ok r, w)

def Client.Projects (σ : Env) (c : Client) (w : Wire) :
    Except String (List Redmine.Project) × Wire :=
  match c.getProjects σ NewProjectsFilter w with
  | (.error err, w) => (.error err, w)
  | (.ok pr, w) => (.ok pr.Projects, w)

def Client.ProjectsWithFilter (σ : Env) (c : Client) (filter : ProjectsFilter) (w : Wire) :
    Except String (List Redmine.Project) × Wire :=
  match c.getProjects σ filter w with
  | (.error err, w) => (.error err, w)
  | (.ok pr, w) => (.ok pr.Projects, w)

/-- How a call of the traversal ends: with the projects, with an error, or in
a run-time panic. -/
inductive Outcome where
  | value (projects : List Project)
  | error (err : String)
  | panic (msg : String)
  deriving DecidableEq, Repr

/-- State a call of the traversal leaves behind: `result` is `none` while the
loop is still running when the fuel is used up. -/
structure Run where
  result : Option Outcome
  client : Client
  wire : Wire

/-- The loop of `FullTraversingClient.ProjectsWithFilter`, entered at the top
of its body: `for proceed := true; proceed; proceed = curPage < maxPage`, one
unit of fuel for each pass. -/
def traverse (σ : Env) (filter : ProjectsFilter) :
    Nat → Client → Wire → Int → Int → List Project → Run
  | 0, tc, w, _, _, _ => ⟨none, tc, w⟩
  | fuel + 1, tc, w, curPage, _, projects =>
    match tc.getProjects σ filter w with
    | (.error err, w) => ⟨some (.error err), tc, w⟩
    | (.ok pr, w) =>
      let projects := projects ++ pr.Projects
      let curPage := wrapInt (curPage + 1)
      if tc.Limit = 0 then ⟨some (.panic "runtime error: integer divide by zero"), tc, w⟩
      else
        let maxPage := wrapInt (1 + wrapInt (Int.tdiv (wrapInt (pr.TotalCount - 1)) tc.Limit))
        let tc := { tc with Offset := wrapInt (tc.Offset + tc.Limit) }
        if curPage < maxPage then traverse σ filter fuel tc w curPage maxPage projects
        else ⟨some (.value projects), tc, w⟩

def FullTraversingClient.ProjectsWithFilter (σ : Env) (fuel : Nat) (tc : FullTraversingClient)
    (filter : ProjectsFilter) (w : Wire) : Run :=
  let curPage := 0
  let maxPage := 1
  let tc : Redmine.Client := { tc.Client with Offset := 0 }
  let projects := []
  traverse σ filter fuel tc w curPage maxPage projects

def FullTraversingClient.Projects (σ : Env) (fuel : Nat) (tc : FullTraversingClient)
    (w : Wire) : Run :=
  tc.ProjectsWithFilter σ fuel NewProjectsFilter w

def Client.CreateProject (σ : Env) (c : Client) (project : Redmine.Project) (w : Wire) :
    Except String Redmine.Project × Wire :=
  match σ.Marshal ⟨project⟩ with
  | .error err => (.error err, w)
  | .ok s =>
    match NewRequest σ "POST" (c.endpoint ++ "/projects.json?key=" ++ c.apikey) s with
    | .error err => (.error err, w)
    | .ok req =>
      let req := { req with Header := Header.Set req.Header "Content-Type" "application/json" }
      match c.Do w req with
      | (.error err, w) => (.error err, w)
      | (.ok res, w) =>
        let r : Except String projectRequest :=
          if res.StatusCode ≠ 201 then
            match σ.DecodeErrors res.Body with
            | .error err => .error err
            | .ok er => .error (Join er.Errors "\n")
          else σ.DecodeProjectRequest res.Body
        match r with
        | .error err => (.error err, w)
        | .ok r => (.ok r.Project, w)

def Client.UpdateProject (σ : Env) (c : Client) (project : Redmine.Project) (w : Wire) :
    Except String Unit × Wire :=
  match σ.Marshal ⟨project⟩ with
  | .error err => (.error err, w)
  | .ok s =>
    match NewRequest σ "PUT"
        (c.endpoint ++ "/projects/" ++ Itoa project.Id ++ ".json?key=" ++ c.apikey) s with
    | .error err => (.error err, w)
    | .ok req =>
      let req := { req with Header := Header.Set req.Header "Content-Type" "application/json" }
      match c.Do w req with
      | (.error err, w) => (.error err, w)
      | (.ok res, w) =>
        if res.StatusCode = 404 then (.error "Not Found", w)
        else if res.StatusCode ≠ 200 then
          match σ.DecodeErrors res.Body with
          | .error err => (.error err, w)
          | .ok er => (.error (Join er.Errors "\n"), w)
        else (.ok (), w)

def Client.DeleteProject (σ : Env) (c : Client) (id : Int) (w : Wire) :
    Except String Unit × Wire :=
  match NewRequest σ "DELETE"
      (c.endpoint ++ "/projects/" ++ Itoa id ++ ".json?key=" ++ c.apikey) "" with
  | .error err => (.error err, w)
  | .ok req =>
    let req := { req with Header := Header.Set req.Header "Content-Type" "application/json" }
    match c.Do w req with
    | (.error err, w) => (.error err, w)
    | (.ok res, w) =>
      if res.StatusCode = 404 then (.error "Not Found", w)
      else if res.StatusCode ≠ 200 then
        match σ.DecodeErrors res.Body with
        | .error err => (.error err, w)
        | .ok er => (.error (Join er.Errors "\n"), w)
      else (.ok (), w)

/-! ## Observations on a run -/

/-- The operation that took the wire from `w` to `after` performed exactly one
exchange, and the underlying client answered it with the response `res`. -/
def Received (after w : Wire) (res : Response) : Prop :=
  ∃ req, after.sent = w.sent ++ [req] ∧ w.script w.sent.length req = .ok res

/-- Outcome of the k-th list request (counting from 0) of a traversal that
starts on the wire `w` with the page size `tc.Limit`: `getProjects` at offset
`k * Limit`, as the k-th further exchange on `w`. -/
def listReply (σ : Env) (tc : Client) (filter : ProjectsFilter) (w : Wire) (k : Nat) :
    Except String projectsResult :=
  (Client.getProjects σ { tc with Offset := (k : Int) * tc.Limit } filter
    ⟨fun i => w.script (i + k), w.sent⟩).1

/-- The page count the loop derives from a reported total count `T` and the
page size `L`, in Go `int` arithmetic. -/
def maxPageOf (T L : Int) : Int :=
  wrapInt (1 + wrapInt (Int.tdiv (wrapInt (T - 1)) L))

/-- The number `max(1, ceil(T / L))` of a total count `T` and a page size `L`. -/
def pageCount (T L : Int) : Nat := (max 1 ⌈(T : ℚ) / (L : ℚ)⌉).toNat

/-- The request `getProjects` puts on the wire: the URL built by
`URLWithFilter`, the API-key header added by `getProjects` and the headers
added by `Client.Do`. -/
def Client.listRequest (σ : Env) (c : Client) (filter : ProjectsFilter) :
    Except String Request :=
  match c.URLWithFilter σ "/projects.json" filter.Filter with
  | .error err => .error err
  | .ok uri =>
    match NewRequest σ "GET" uri "" with
    | .error err => .error err
    | .ok req =>
      .ok (c.outgoing { req with Header := Header.Add req.Header "X-Redmine-API-Key" c.apikey })

/-- Response handling of `getProjects`. -/
def decodeList (σ : Env) (res : Response) : Except String projectsResult :=
  if res.StatusCode ≠ 200 then
    match σ.DecodeErrors res.Body with
    | .error err => .error err
    | .ok er => .error (Join er.Errors "\n")
  else σ.DecodeProjects res.Body

/-! ## Worked instances -/

def sampleProject (id : Int) (name : String) : Project :=
  ⟨id, ⟨0, ""⟩, name, name, "", "", "", []⟩

/-- Body of an error envelope with two messages. -/
def errorBody : String :=
  "\x7b\"errors\":[\"Name cannot be blank\",\"Identifier is invalid\"]\x7d"

/-- Body of a single-project envelope. -/
def projectBody : String :=
  "\x7b\"project\":\x7b\"id\":7,\"name\":\"alpha\",\"identifier\":\"alpha\"\x7d\x7d"

/-- Body of a list page: the projects with the given ids, and a total count. -/
def pageBody (ids : List Nat) (total : Int) : String :=
  "\x7b\"projects\":[" ++ ",".intercalate (ids.map Nat.repr) ++ "],\"total_count\":"
    ++ Itoa total ++ "\x7d"

/-- The list pages that the worked instances serve. -/
def samplePages : List (String × projectsResult) :=
  [ (pageBody [1, 2] 2, ⟨[sampleProject 1 "p1", sampleProject 2 "p2"], ⟨2, 2, 0⟩⟩),
    (pageBody [1, 2] 5, ⟨[sampleProject 1 "p1", sampleProject 2 "p2"], ⟨5, 2, 0⟩⟩),
    (pageBody [3, 4] 5, ⟨[sampleProject 3 "p3", sampleProject 4 "p4"], ⟨5, 2, 2⟩⟩),
    (pageBody [5] 5, ⟨[sampleProject 5 "p5"], ⟨5, 2, 4⟩⟩),
    (pageBody [] (-9223372036854775808), ⟨[], ⟨-9223372036854775808, 2, 0⟩⟩),
    (pageBody [3] 3, ⟨[sampleProject 3 "p3"], ⟨3, 2, 2⟩⟩) ]

/-- A stand-in for the standard library on the bodies of the worked
instances: every URL parses, a filter is rendered as `k=v` joined by `&`,
and the decoders know the bodies above (an empty body is the end of input,
any other text is not the JSON they expect). -/
def sampleEnv : Env where
  Parse s := .ok ⟨"", s, "", ""⟩
  URLString u :=
    u.Scheme ++ u.Host ++ u.Path ++ (if u.RawQuery = "" then "" else "?" ++ u.RawQuery)
  ToURLParams f := "&".intercalate (f.pairs.map fun p => p.1 ++ "=" ++ p.2)
  Marshal r := .ok ("\x7b\"project\":\x7b\"id\":" ++ Itoa r.Project.Id ++ ",\"name\":\""
    ++ r.Project.Name ++ "\"\x7d\x7d")
  DecodeErrors b :=
    if b = errorBody then .ok ⟨["Name cannot be blank", "Identifier is invalid"]⟩
    else if b = "" then .error "EOF"
    else .error "invalid character looking for beginning of value"
  DecodeProject b :=
    if b = projectBody then .ok ⟨sampleProject 7 "alpha"⟩
    else if b = "" then .error "EOF"
    else .error "invalid character looking for beginning of value"
  DecodeProjectRequest b :=
    if b = projectBody then .ok ⟨sampleProject 7 "alpha"⟩
    else if b = "" then .error "EOF"
    else .error "invalid character looking for beginning of value"
  DecodeProjects b :=
    match samplePages.lookup b with
    | some r => .ok r
    | none =>
      if b = "" then .error "EOF"
      else .error "invalid character looking for beginning of value"

def sampleClient : Client := ⟨"http://example.test", "secret", "", 25, 50⟩

/-- A wire on which nothing was sent yet and which answers every request
with the same response. -/
def answering (res : Response) : Wire := ⟨fun _ _ => .ok res, []⟩

/-- A wire on which nothing was sent yet and which answers the k-th request
with status 200 and the k-th of the given bodies; past the last body the
connection fails. -/
def serving (bodies : List String) : Wire :=
  ⟨fun k _ => match bodies.get? k with
    | some b => .ok ⟨200, b⟩
    | none => .error "connection refused", []⟩

end Redmine

namespace Redmine

/-! ## Exchanges -/

theorem Do_fst (c : Client) (w : Wire) (req : Request) :
    (c.Do w req).1 = w.script w.sent.length (c.outgoing req) := rfl

theorem Do_snd (c : Client) (w : Wire) (req : Request) :
    (c.Do w req).2 = ⟨w.script, w.sent ++ [c.outgoing req]⟩ := rfl

theorem not_received_of_idle (w : Wire) (res : Response) : ¬ Received w w res := by
  rintro ⟨req, h, _⟩
  have := congrArg List.length h
  simp at this

theorem received_iff (w : Wire) (out : Request) (res : Response) :
    Received ⟨w.script, w.sent ++ [out]⟩ w res ↔ w.script w.sent.length out = .ok res := by
  constructor
  · rintro ⟨req, h, hs⟩
    have : out = req := by simpa using h
    rw [this]; exact hs
  · intro h
    exact ⟨out, rfl, h⟩

/-- Response handling of `UpdateProject` once the exchange has been made. -/
theorem UpdateProject_received (σ : Env) (c : Client) (project : Project) (w : Wire)
    (res : Response) (h : Received (c.UpdateProject σ project w).2 w res) :
    (c.UpdateProject σ project w).1 =
      if res.StatusCode = 404 then .error "Not Found"
      else if res.StatusCode ≠ 200 then
        match σ.DecodeErrors res.Body with
        | .error err => .error err
        | .ok er => .error (Join er.Errors "\n")
      else .ok () := by
  unfold Client.UpdateProject at h ⊢
  cases hm : σ.Marshal ⟨project⟩ with
  | error e => rw [hm] at h; exact absurd h (not_received_of_idle _ _)
  | ok s =>
    rw [hm] at h
    simp only at h ⊢
    cases hn : NewRequest σ "PUT"
        (c.endpoint ++ "/projects/" ++ Itoa project.Id ++ ".json?key=" ++ c.apikey) s with
    | error e => rw [hn] at h; exact absurd h (not_received_of_idle _ _)
    | ok req =>
      rw [hn] at h
      simp only [Client.Do, Wire.Do] at h ⊢
      generalize c.outgoing _ = out at h ⊢
      cases hr : w.script w.sent.length out with
      | error e =>
        rw [hr] at h
        have := (received_iff w out res).1 h
        rw [hr] at this; cases this
      | ok r =>
        rw [hr] at h
        have h2 : Received ⟨w.script, w.sent ++ [out]⟩ w res := by
          revert h; simp only; split_ifs <;> [skip; split; skip] <;> exact fun hx => hx
        have := (received_iff w out res).1 h2
        rw [hr] at this
        cases this
        simp only
        split_ifs <;> [rfl; split; rfl] <;> rfl

/-- Response handling of `DeleteProject` once the exchange has been made. -/
theorem DeleteProject_received (σ : Env) (c : Client) (id : Int) (w : Wire)
    (res : Response) (h : Received (c.DeleteProject σ id w).2 w res) :
    (c.DeleteProject σ id w).1 =
      if res.StatusCode = 404 then .error "Not Found"
      else if res.StatusCode ≠ 200 then
        match σ.DecodeErrors res.Body with
        | .error err => .error err
        | .ok er => .error (Join er.Errors "\n")
      else .ok () := by
  unfold Client.DeleteProject at h ⊢
  cases hn : NewRequest σ "DELETE"
      (c.endpoint ++ "/projects/" ++ Itoa id ++ ".json?key=" ++ c.apikey) "" with
  | error e => rw [hn] at h; exact absurd h (not_received_of_idle _ _)
  | ok req =>
    rw [hn] at h
    simp only [Client.Do, Wire.Do] at h ⊢
    generalize c.outgoing _ = out at h ⊢
    cases hr : w.script w.sent.length out with
    | error e =>
      rw [hr] at h
      have := (received_iff w out res).1 h
      rw [hr] at this; cases this
    | ok r =>
      rw [hr] at h
      have h2 : Received ⟨w.script, w.sent ++ [out]⟩ w res := by
        revert h; simp only; split_ifs <;> [skip; split; skip] <;> exact fun hx => hx
      have := (received_iff w out res).1 h2
      rw [hr] at this
      cases this
      simp only
      split_ifs <;> [rfl; split; rfl] <;> rfl

/-- Response handling of `Project` once the exchange has been made. -/
theorem Project_received (σ : Env) (c : Client) (id : Int) (w : Wire)
    (res : Response) (h : Received (c.Project σ id w).2 w res) :
    (c.Project σ id w).1 =
      if res.StatusCode ≠ 200 then
        match σ.DecodeErrors res.Body with
        | .error err => .error err
        | .ok er => .error (Join er.Errors "\n")
      else
        match σ.DecodeProject res.Body with
        | .error err => .error err
        | .ok r => .ok r.Project := by
  unfold Client.Project Wire.Get at h ⊢
  cases hn : NewRequest σ "GET"
      (c.endpoint ++ "/projects/" ++ Itoa id ++ ".json?key=" ++ c.apikey) "" with
  | error e => rw [hn] at h; exact absurd h (not_received_of_idle _ _)
  | ok out =>
    rw [hn] at h
    simp only [Wire.Do] at h ⊢
    cases hr : w.script w.sent.length out with
    | error e =>
      rw [hr] at h
      have := (received_iff w out res).1 h
      rw [hr] at this; cases this
    | ok r =>
      rw [hr] at h
      have h2 : Received ⟨w.script, w.sent ++ [out]⟩ w res := by
        revert h; simp only; split <;> exact fun hx => hx
      have := (received_iff w out res).1 h2
      rw [hr] at this
      cases this
      simp only
      split_ifs with h200
      · cases σ.DecodeErrors res.Body <;> rfl
      · cases σ.DecodeProject res.Body <;> rfl

/-- Response handling of `CreateProject` once the exchange has been made. -/
theorem CreateProject_received (σ : Env) (c : Client) (project : Project) (w : Wire)
    (res : Response) (h : Received (c.CreateProject σ project w).2 w res) :
    (c.CreateProject σ project w).1 =
      if res.StatusCode ≠ 201 then
        match σ.DecodeErrors res.Body with
        | .error err => .error err
        | .ok er => .error (Join er.Errors "\n")
      else
        match σ.DecodeProjectRequest res.Body with
        | .error err => .error err
        | .ok r => .ok r.Project := by
  unfold Client.CreateProject at h ⊢
  cases hm : σ.Marshal ⟨project⟩ with
  | error e => rw [hm] at h; exact absurd h (not_received_of_idle _ _)
  | ok s =>
    rw [hm] at h
    simp only at h ⊢
    cases hn : NewRequest σ "POST" (c.endpoint ++ "/projects.json?key=" ++ c.apikey) s with
    | error e => rw [hn] at h; exact absurd h (not_received_of_idle _ _)
    | ok req =>
      rw [hn] at h
      simp only [Client.Do, Wire.Do] at h ⊢
      generalize c.outgoing _ = out at h ⊢
      cases hr : w.script w.sent.length out with
      | error e =>
        rw [hr] at h
        have := (received_iff w out res).1 h
        rw [hr] at this; cases this
      | ok r =>
        rw [hr] at h
        have h2 : Received ⟨w.script, w.sent ++ [out]⟩ w res := by
          revert h; simp only; split <;> exact fun hx => hx
        have := (received_iff w out res).1 h2
        rw [hr] at this
        cases this
        simp only
        split_ifs with h201
        · cases σ.DecodeErrors res.Body <;> rfl
        · cases σ.DecodeProjectRequest res.Body <;> rfl

/-- The list operation in two steps: the request is built, then exchanged and
the response decoded. -/
theorem getProjects_eq (σ : Env) (c : Client) (filter : ProjectsFilter) (w : Wire) :
    c.getProjects σ filter w =
      match c.listRequest σ filter with
      | .error err => (.error err, w)
      | .ok out =>
        (match w.script w.sent.length out with
          | .error err => .error err
          | .ok res => decodeList σ res,
         ⟨w.script, w.sent ++ [out]⟩) := by
  unfold Client.getProjects Client.listRequest
  cases c.URLWithFilter σ "/projects.json" filter.Filter with
  | error e => rfl
  | ok uri =>
    simp only
    cases NewRequest σ "GET" uri "" with
    | error e => rfl
    | ok req =>
      simp only [Client.Do, Wire.Do]
      generalize c.outgoing _ = out
      cases w.script w.sent.length out with
      | error e => rfl
      | ok res =>
        simp only [decodeList]
        split_ifs with h200
        · cases σ.DecodeErrors res.Body <;> rfl
        · cases σ.DecodeProjects res.Body <;> rfl

/-- Response handling of `getProjects` once the exchange has been made. -/
theorem getProjects_received (σ : Env) (c : Client) (filter : ProjectsFilter) (w : Wire)
    (res : Response) (h : Received (c.getProjects σ filter w).2 w res) :
    (c.getProjects σ filter w).1 = decodeList σ res := by
  rw [getProjects_eq] at h ⊢
  cases hq : c.listRequest σ filter with
  | error e => rw [hq] at h; exact absurd h (not_received_of_idle _ _)
  | ok out =>
    rw [hq] at h
    have := (received_iff w out res).1 h
    simp only [this]

/-! ## Go `int` arithmetic -/

theorem wrapInt_of_range (x : Int) (h1 : intMin ≤ x) (h2 : x ≤ intMax) : wrapInt x = x := by
  unfold wrapInt
  unfold intMin at h1
  unfold intMax at h2
  omega

theorem wrapInt_range (x : Int) : intMin ≤ wrapInt x ∧ wrapInt x ≤ intMax := by
  unfold wrapInt intMin intMax
  omega

theorem tdiv_of_nonneg (a L : Int) (ha : 0 ≤ a) (hL : 0 < L) :
    0 ≤ Int.tdiv a L ∧ Int.tdiv a L * L ≤ a ∧ a < (Int.tdiv a L + 1) * L := by
  rw [Int.tdiv_eq_ediv ha hL.le]
  exact ⟨Int.ediv_nonneg ha hL.le, Int.ediv_mul_le a hL.ne', Int.lt_ediv_add_one_mul_self a hL⟩

theorem tdiv_of_neg (a L : Int) (ha : a < 0) (hL : 0 < L) :
    Int.tdiv a L ≤ 0 ∧ a ≤ Int.tdiv a L := by
  have hb : 0 ≤ -a := by omega
  have h := tdiv_of_nonneg (-a) L hb hL
  rw [Int.neg_tdiv] at h
  obtain ⟨h0, h1, _⟩ := h
  refine ⟨by omega, ?_⟩
  have : -Int.tdiv a L ≤ -Int.tdiv a L * L := by nlinarith
  omega

/-- With a total count above the smallest `int`, no step of the page-count
computation overflows. -/
theorem maxPageOf_of_range (T L : Int) (hL : 0 < L) (h1 : intMin < T) (h2 : T ≤ intMax) :
    maxPageOf T L = 1 + Int.tdiv (T - 1) L := by
  unfold maxPageOf
  have e1 : wrapInt (T - 1) = T - 1 := wrapInt_of_range _ (by omega) (by omega)
  rw [e1]
  have hq : intMin ≤ Int.tdiv (T - 1) L ∧ Int.tdiv (T - 1) L ≤ intMax - 1 := by
    rcases lt_or_le (T - 1) 0 with hneg | hpos
    · have := tdiv_of_neg (T - 1) L hneg hL
      unfold intMin intMax at *
      omega
    · obtain ⟨h0, hle, _⟩ := tdiv_of_nonneg (T - 1) L hpos hL
      have : Int.tdiv (T - 1) L ≤ Int.tdiv (T - 1) L * L := by nlinarith
      unfold intMin intMax at *
      omega
  have e2 : wrapInt (Int.tdiv (T - 1) L) = Int.tdiv (T - 1) L :=
    wrapInt_of_range _ hq.1 (by omega)
  rw [e2]
  exact wrapInt_of_range _ (by unfold intMin at *; omega) (by omega)

/-- When the loop goes on after its k-th pass, the next offset and the next
page number are computed without overflow. -/
theorem room_of_continue (T L : Int) (k : Nat) (hL : 0 < L)
    (h : ((k : Int) + 1) < maxPageOf T L) :
    ((k : Int) + 1) * L ≤ intMax ∧ (k : Int) + 1 < intMax := by
  unfold maxPageOf at h
  have hM := wrapInt_range (T - 1)
  generalize wrapInt (T - 1) = M at h hM
  have hk : (0 : Int) ≤ k := Int.ofNat_nonneg k
  rcases lt_or_le M 0 with hneg | hpos
  · have hq := tdiv_of_neg M L hneg hL
    have e2 : wrapInt (Int.tdiv M L) = Int.tdiv M L :=
      wrapInt_of_range _ (by omega) (by unfold intMax; omega)
    rw [e2] at h
    have e3 : wrapInt (1 + Int.tdiv M L) = 1 + Int.tdiv M L :=
      wrapInt_of_range _ (by unfold intMin at *; omega) (by unfold intMax; omega)
    rw [e3] at h
    omega
  · obtain ⟨h0, hle, _⟩ := tdiv_of_nonneg M L hpos hL
    have hqM : Int.tdiv M L ≤ M := by nlinarith
    have e2 : wrapInt (Int.tdiv M L) = Int.tdiv M L :=
      wrapInt_of_range _ (by unfold intMin; omega) (by omega)
    rw [e2] at h
    by_cases hmax : Int.tdiv M L = intMax
    · exfalso
      rw [hmax] at h
      have : wrapInt (1 + intMax) = intMin := by unfold wrapInt intMax intMin; omega
      rw [this] at h
      unfold intMin at h
      omega
    · have e3 : wrapInt (1 + Int.tdiv M L) = 1 + Int.tdiv M L :=
        wrapInt_of_range _ (by unfold intMin; omega) (by omega)
      rw [e3] at h
      refine ⟨?_, by omega⟩
      have : ((k : Int) + 1) * L ≤ Int.tdiv M L * L := by nlinarith
      omega

/-! ## The traversal loop -/

theorem listReply_eq (σ : Env) (tc : Client) (filter : ProjectsFilter) (w : Wire) (k : Nat) :
    listReply σ tc filter w k =
      match Client.listRequest σ { tc with Offset := (k : Int) * tc.Limit } filter with
      | .error err => .error err
      | .ok out =>
        match w.script (w.sent.length + k) out with
        | .error err => .error err
        | .ok res => decodeList σ res := by
  unfold listReply
  rw [getProjects_eq]
  cases Client.listRequest σ { tc with Offset := (k : Int) * tc.Limit } filter <;> rfl

/-- A successful k-th list request puts exactly one request on the wire. -/
theorem getProjects_ok_at (σ : Env) (tc : Client) (filter : ProjectsFilter) (w : Wire)
    (k : Nat) (reqs : List Request) (p : projectsResult) (hlen : reqs.length = k)
    (h : listReply σ tc filter w k = .ok p) :
    ∃ out, Client.listRequest σ { tc with Offset := (k : Int) * tc.Limit } filter = .ok out ∧
      Client.getProjects σ { tc with Offset := (k : Int) * tc.Limit } filter
          ⟨w.script, w.sent ++ reqs⟩ = (.ok p, ⟨w.script, w.sent ++ reqs ++ [out]⟩) := by
  rw [listReply_eq] at h
  rw [getProjects_eq]
  cases hq : Client.listRequest σ { tc with Offset := (k : Int) * tc.Limit } filter with
  | error e => rw [hq] at h; cases h
  | ok out =>
    rw [hq] at h
    refine ⟨out, rfl, ?_⟩
    simp only [List.length_append, hlen] at h ⊢
    rw [h]

/-- A failed k-th list request puts at most one request on the wire. -/
theorem getProjects_error_at (σ : Env) (tc : Client) (filter : ProjectsFilter) (w : Wire)
    (k : Nat) (reqs : List Request) (e : String) (hlen : reqs.length = k)
    (h : listReply σ tc filter w k = .error e) :
    ∃ more, more.length ≤ 1 ∧
      (∀ out, out ∈ more →
        Client.listRequest σ { tc with Offset := (k : Int) * tc.Limit } filter = .ok out) ∧
      Client.getProjects σ { tc with Offset := (k : Int) * tc.Limit } filter
          ⟨w.script, w.sent ++ reqs⟩ = (.error e, ⟨w.script, w.sent ++ reqs ++ more⟩) := by
  rw [listReply_eq] at h
  rw [getProjects_eq]
  cases hq : Client.listRequest σ { tc with Offset := (k : Int) * tc.Limit } filter with
  | error e2 =>
    rw [hq] at h
    cases h
    exact ⟨[], by simp, by simp, by simp⟩
  | ok out =>
    rw [hq] at h
    refine ⟨[out], by simp, by simp, ?_⟩
    simp only [List.length_append, hlen] at h ⊢
    rw [h]

theorem traverse_succ_error (σ : Env) (filter : ProjectsFilter) (fuel : Nat) (c : Client)
    (w w2 : Wire) (cur mp : Int) (acc : List Project) (e : String)
    (h : c.getProjects σ filter w = (.error e, w2)) :
    traverse σ filter (fuel + 1) c w cur mp acc = ⟨some (.error e), c, w2⟩ := by
  rw [traverse, h]

theorem traverse_succ_ok (σ : Env) (filter : ProjectsFilter) (fuel : Nat) (c : Client)
    (w w2 : Wire) (cur mp : Int) (acc : List Project) (p : projectsResult)
    (h : c.getProjects σ filter w = (.ok p, w2)) (hL : c.Limit ≠ 0) :
    traverse σ filter (fuel + 1) c w cur mp acc =
      if wrapInt (cur + 1) < maxPageOf p.TotalCount c.Limit then
        traverse σ filter fuel { c with Offset := wrapInt (c.Offset + c.Limit) } w2
          (wrapInt (cur + 1)) (maxPageOf p.TotalCount c.Limit) (acc ++ p.Projects)
      else ⟨some (.value (acc ++ p.Projects)),
        { c with Offset := wrapInt (c.Offset + c.Limit) }, w2⟩ := by
  rw [traverse, h]
  simp only [hL, if_false, maxPageOf]

/-- The state in which the loop starts its pass number `k + 1` when it goes
on after pass `k`. -/
theorem next_state (tc : Client) (k : Nat) (T : Int) (hL : 0 < tc.Limit)
    (h : ((k : Int) + 1) < maxPageOf T tc.Limit) :
    wrapInt ((k : Int) * tc.Limit + tc.Limit) = ((k + 1 : Nat) : Int) * tc.Limit ∧
      wrapInt ((k : Int) + 1) = ((k + 1 : Nat) : Int) ∧ (((k + 1 : Nat) : Int)) < intMax := by
  obtain ⟨h1, h2⟩ := room_of_continue T tc.Limit k hL h
  have hk : (0 : Int) ≤ k := Int.ofNat_nonneg k
  have hnn : 0 ≤ ((k : Int) + 1) * tc.Limit := by positivity
  have e : (k : Int) * tc.Limit + tc.Limit = ((k : Int) + 1) * tc.Limit := by ring
  refine ⟨?_, ?_, ?_⟩
  · rw [e, wrapInt_of_range _ (by unfold intMin; omega) h1]
    push_cast; ring
  · rw [wrapInt_of_range _ (by unfold intMin; omega) (by omega)]
    push_cast; ring
  · push_cast; exact h2

/-- The loop from its pass number `k`, when the passes `k .. k + d - 1`
succeed, every one but the last asks for a further page and the last one does
not: `d` further requests, and the pages appended in order. -/
theorem traverse_pages (σ : Env) (filter : ProjectsFilter) (tc : Client) (w : Wire)
    (hL : 0 < tc.Limit) (pr : Nat → projectsResult) (n : Nat)
    (hok : ∀ k, k < n → listReply σ tc filter w k = .ok (pr k))
    (hcont : ∀ k, k + 1 < n → ((k : Int) + 1) < maxPageOf (pr k).TotalCount tc.Limit)
    (hstop : ¬ ((n : Int) < maxPageOf (pr (n - 1)).TotalCount tc.Limit)) :
    ∀ (d k : Nat), k + (d + 1) = n → ∀ fuel, d + 1 ≤ fuel →
      ∀ (reqs : List Request) (acc : List Project) (mp : Int),
        reqs.length = k → (k : Int) < intMax →
        (traverse σ filter fuel { tc with Offset := (k : Int) * tc.Limit }
            ⟨w.script, w.sent ++ reqs⟩ k mp acc).result
          = some (.value (acc ++ (List.range' k (d + 1)).flatMap fun j => (pr j).Projects)) ∧
        ∃ more, more.length = d + 1 ∧
          (traverse σ filter fuel { tc with Offset := (k : Int) * tc.Limit }
            ⟨w.script, w.sent ++ reqs⟩ k mp acc).wire.sent = w.sent ++ reqs ++ more := by
  intro d
  induction d with
  | zero =>
    intro k hk fuel hfuel reqs acc mp hlen hlt
    obtain ⟨f, rfl⟩ : ∃ f, fuel = f + 1 := ⟨fuel - 1, by omega⟩
    have hkn : k < n := by omega
    have e0 : n - 1 = k := by omega
    have e1 : wrapInt ((k : Int) + 1) = (n : Int) := by
      rw [wrapInt_of_range _ (by unfold intMin; omega) (by omega)]
      rw [← hk]; push_cast; ring
    clear hk hfuel hlt
    obtain ⟨out, _, hg⟩ := getProjects_ok_at σ tc filter w k reqs (pr k) hlen (hok k hkn)
    rw [traverse_succ_ok σ filter f _ _ _ _ mp acc (pr k) hg (by simpa using hL.ne')]
    rw [e0] at hstop
    simp only [e1, hstop, if_false]
    refine ⟨by simp, [out], rfl, rfl⟩
  | succ d ih =>
    intro k hk fuel hfuel reqs acc mp hlen hlt
    obtain ⟨f, rfl⟩ : ∃ f, fuel = f + 1 := ⟨fuel - 1, by omega⟩
    have hkn : k < n := by omega
    have hkn1 : k + 1 < n := by omega
    have hk1 : k + 1 + (d + 1) = n := by omega
    have hf : d + 1 ≤ f := by omega
    clear hk hfuel hlt
    obtain ⟨out, _, hg⟩ := getProjects_ok_at σ tc filter w k reqs (pr k) hlen (hok k hkn)
    rw [traverse_succ_ok σ filter f _ _ _ _ mp acc (pr k) hg (by simpa using hL.ne')]
    have hc := hcont k hkn1
    obtain ⟨e1, e2, e3⟩ := next_state tc k _ hL hc
    simp only [e1, e2]
    have hc2 : ((k + 1 : Nat) : Int) < maxPageOf (pr k).TotalCount tc.Limit := by
      push_cast; exact hc
    simp only [hc2, if_true]
    have hlen1 : (reqs ++ [out]).length = k + 1 := by
      rw [List.length_append, hlen]; rfl
    have := ih (k + 1) hk1 f hf (reqs ++ [out]) (acc ++ (pr k).Projects)
      (maxPageOf (pr k).TotalCount tc.Limit) hlen1 e3
    rw [List.append_assoc w.sent reqs [out]]
    obtain ⟨hres, more, hm, hs⟩ := this
    refine ⟨?_, out :: more, by rw [List.length_cons, hm], ?_⟩
    · rw [hres, List.range'_succ k (d + 1)]
      simp [List.flatMap_cons]
    · rw [hs]; simp

/-- The loop from its pass number `k`, when the passes `k .. k + d - 1`
succeed and ask for a further page and pass `k + d` fails: the error of that
pass, and no request after it. -/
theorem traverse_fail (σ : Env) (filter : ProjectsFilter) (tc : Client) (w : Wire)
    (hL : 0 < tc.Limit) (pr : Nat → projectsResult) (n : Nat) (e : String)
    (hok : ∀ j, j < n → listReply σ tc filter w j = .ok (pr j))
    (hcont : ∀ j, j < n → ((j : Int) + 1) < maxPageOf (pr j).TotalCount tc.Limit)
    (hfail : listReply σ tc filter w n = .error e) :
    ∀ (d k : Nat), k + d = n → ∀ fuel, d + 1 ≤ fuel →
      ∀ (reqs : List Request) (acc : List Project) (mp : Int),
        reqs.length = k → (k : Int) < intMax →
        (traverse σ filter fuel { tc with Offset := (k : Int) * tc.Limit }
            ⟨w.script, w.sent ++ reqs⟩ k mp acc).result = some (.error e) ∧
        ∃ more, d ≤ more.length ∧ more.length ≤ d + 1 ∧
          (traverse σ filter fuel { tc with Offset := (k : Int) * tc.Limit }
            ⟨w.script, w.sent ++ reqs⟩ k mp acc).wire.sent = w.sent ++ reqs ++ more := by
  intro d
  induction d with
  | zero =>
    intro k hk fuel hfuel reqs acc mp hlen hlt
    obtain ⟨f, rfl⟩ : ∃ f, fuel = f + 1 := ⟨fuel - 1, by omega⟩
    have hkn : k = n := by omega
    subst hkn
    obtain ⟨more, hm, _, hg⟩ := getProjects_error_at σ tc filter w k reqs e hlen hfail
    rw [traverse_succ_error σ filter f _ _ _ _ mp acc e hg]
    exact ⟨rfl, more, Nat.zero_le _, hm, rfl⟩
  | succ d ih =>
    intro k hk fuel hfuel reqs acc mp hlen hlt
    obtain ⟨f, rfl⟩ : ∃ f, fuel = f + 1 := ⟨fuel - 1, by omega⟩
    have hkn : k < n := by omega
    have hk1 : k + 1 + d = n := by omega
    have hf : d + 1 ≤ f := by omega
    clear hk hfuel hlt
    obtain ⟨out, _, hg⟩ := getProjects_ok_at σ tc filter w k reqs (pr k) hlen (hok k hkn)
    rw [traverse_succ_ok σ filter f _ _ _ _ mp acc (pr k) hg (by simpa using hL.ne')]
    have hc := hcont k hkn
    obtain ⟨e1, e2, e3⟩ := next_state tc k _ hL hc
    simp only [e1, e2]
    have hc2 : ((k + 1 : Nat) : Int) < maxPageOf (pr k).TotalCount tc.Limit := by
      push_cast; exact hc
    simp only [hc2, if_true]
    have hlen1 : (reqs ++ [out]).length = k + 1 := by
      rw [List.length_append, hlen]; rfl
    have := ih (k + 1) hk1 f hf (reqs ++ [out]) (acc ++ (pr k).Projects)
      (maxPageOf (pr k).TotalCount tc.Limit) hlen1 e3
    rw [List.append_assoc w.sent reqs [out]]
    obtain ⟨hres, more, hm1, hm2, hs⟩ := this
    refine ⟨hres, out :: more, ?_, ?_, ?_⟩
    · rw [List.length_cons]; exact Nat.succ_le_succ hm1
    · rw [List.length_cons]; exact Nat.succ_le_succ hm2
    · rw [hs]; simp

/-- Whatever the responses are and however long the loop runs, the request of
its pass number `j` is the list request built at offset `j * Limit`. -/
theorem traverse_requests (σ : Env) (filter : ProjectsFilter) (tc : Client) (w : Wire)
    (hL : 0 < tc.Limit) :
    ∀ (fuel k : Nat) (reqs : List Request) (acc : List Project) (mp : Int),
      reqs.length = k → (k : Int) < intMax →
      ∃ more, more.length ≤ fuel ∧
        (traverse σ filter fuel { tc with Offset := (k : Int) * tc.Limit }
          ⟨w.script, w.sent ++ reqs⟩ k mp acc).wire.sent = w.sent ++ reqs ++ more ∧
        ∀ j (hj : j < more.length),
          Client.listRequest σ { tc with Offset := ((k + j : Nat) : Int) * tc.Limit } filter
            = .ok (more.get ⟨j, hj⟩) := by
  intro fuel
  induction fuel with
  | zero =>
    intro k reqs acc mp hlen hlt
    exact ⟨[], by simp, by simp [traverse], by simp⟩
  | succ f ih =>
    intro k reqs acc mp hlen hlt
    have e2 : wrapInt ((k : Int) + 1) = (k : Int) + 1 :=
      wrapInt_of_range _ (by unfold intMin; omega) (by omega)
    clear hlt
    cases hr : listReply σ tc filter w k with
    | error e =>
      obtain ⟨more, hm, hreq, hg⟩ := getProjects_error_at σ tc filter w k reqs e hlen hr
      rw [traverse_succ_error σ filter f _ _ _ _ mp acc e hg]
      refine ⟨more, Nat.le_trans hm (Nat.succ_le_succ (Nat.zero_le f)), rfl, ?_⟩
      intro j hj
      have hj0 : j = 0 := Nat.lt_one_iff.1 (Nat.lt_of_lt_of_le hj hm)
      subst hj0
      exact hreq _ (List.get_mem more 0 hj)
    | ok p =>
      obtain ⟨out, hq, hg⟩ := getProjects_ok_at σ tc filter w k reqs p hlen hr
      rw [traverse_succ_ok σ filter f _ _ _ _ mp acc p hg (by simpa using hL.ne')]
      by_cases hc : ((k : Int) + 1) < maxPageOf p.TotalCount tc.Limit
      · obtain ⟨e1, e2, e3⟩ := next_state tc k _ hL hc
        simp only [e1, e2]
        have hc2 : ((k + 1 : Nat) : Int) < maxPageOf p.TotalCount tc.Limit := by
          push_cast; exact hc
        simp only [hc2, if_true]
        have hlen1 : (reqs ++ [out]).length = k + 1 := by
          rw [List.length_append, hlen]; rfl
        obtain ⟨more, hm, hs, hreq⟩ := ih (k + 1) (reqs ++ [out]) (acc ++ p.Projects)
          (maxPageOf p.TotalCount tc.Limit) hlen1 e3
        rw [List.append_assoc w.sent reqs [out]]
        refine ⟨out :: more, ?_, by rw [hs]; simp, ?_⟩
        · rw [List.length_cons]; exact Nat.succ_le_succ hm
        · intro j hj
          cases j with
          | zero => simpa using hq
          | succ j =>
            have := hreq j (Nat.lt_of_succ_lt_succ hj)
            have e : k + 1 + j = k + (j + 1) := Nat.add_right_comm k 1 j ▸ rfl
            rw [e] at this
            simpa using this
      · simp only [e2, hc, if_false]
        refine ⟨[out], Nat.succ_le_succ (Nat.zero_le f), rfl, ?_⟩
        intro j hj
        have hj0 : j = 0 := Nat.lt_one_iff.1 hj
        subst hj0
        simpa using hq

theorem ProjectsWithFilter_eq (σ : Env) (fuel : Nat) (tc : FullTraversingClient)
    (filter : ProjectsFilter) (w : Wire) :
    tc.ProjectsWithFilter σ fuel filter w =
      traverse σ filter fuel { tc.Client with Offset := ((0 : Nat) : Int) * tc.Client.Limit }
        ⟨w.script, w.sent ++ []⟩ ((0 : Nat) : Int) 1 [] := by
  simp [FullTraversingClient.ProjectsWithFilter]

/-! ## Page counts -/

theorem ceil_div_of_pos (T L : Int) (hT : 1 ≤ T) (hL : 0 < L) :
    ⌈(T : ℚ) / (L : ℚ)⌉ = 1 + Int.tdiv (T - 1) L := by
  have hLq : (0 : ℚ) < (L : ℚ) := by exact_mod_cast hL
  rw [Int.tdiv_eq_ediv (by omega) hL.le, Int.ceil_eq_iff]
  have h1 := Int.ediv_mul_le (T - 1) hL.ne'
  have h2 := Int.lt_ediv_add_one_mul_self (T - 1) hL
  constructor
  · rw [lt_div_iff₀ hLq]
    have h3 : ((T - 1) / L) * L < T := by omega
    have h4 : ((((T - 1) / L) * L : Int) : ℚ) < (T : ℚ) := by exact_mod_cast h3
    push_cast at h4 ⊢
    linarith
  · rw [div_le_iff₀ hLq]
    have h3 : T ≤ ((T - 1) / L + 1) * L := by omega
    have h4 : (T : ℚ) ≤ ((((T - 1) / L + 1) * L : Int) : ℚ) := by exact_mod_cast h3
    push_cast at h4 ⊢
    linarith

theorem ceil_div_of_nonpos (T L : Int) (hT : T ≤ 0) (hL : 0 < L) :
    ⌈(T : ℚ) / (L : ℚ)⌉ ≤ 0 := by
  rw [Int.ceil_le]
  have hLq : (0 : ℚ) < (L : ℚ) := by exact_mod_cast hL
  have hTq : (T : ℚ) ≤ 0 := by exact_mod_cast hT
  push_cast
  exact div_nonpos_of_nonpos_of_nonneg hTq hLq.le

/-- The page count of the code, `1 + (T - 1) / L` with the quotient truncated
toward zero, against `max(1, ceil(T / L))`. -/
theorem pageCount_eq (T L : Int) (hL : 0 < L) :
    (pageCount T L : Int) = max 1 (1 + Int.tdiv (T - 1) L) := by
  unfold pageCount
  rw [Int.toNat_of_nonneg (le_trans (by norm_num) (le_max_left _ _))]
  rcases le_or_lt T 0 with h0 | h1
  · have hc := ceil_div_of_nonpos T L h0 hL
    have hq := tdiv_of_neg (T - 1) L (by omega) hL
    rw [max_eq_left (by omega), max_eq_left (by omega)]
  · rw [ceil_div_of_pos T L (by omega) hL]

theorem pageCount_pos (T L : Int) : 1 ≤ pageCount T L := by
  unfold pageCount
  have : (1 : Int) ≤ max 1 ⌈(T : ℚ) / (L : ℚ)⌉ := le_max_left _ _
  omega

theorem pageCount_mono (T B L : Int) (h : T ≤ B) (hL : 0 < L) :
    pageCount T L ≤ pageCount B L := by
  unfold pageCount
  have hLq : (0 : ℚ) < (L : ℚ) := by exact_mod_cast hL
  have hTq : (T : ℚ) ≤ B := by exact_mod_cast h
  have : ⌈(T : ℚ) / (L : ℚ)⌉ ≤ ⌈(B : ℚ) / (L : ℚ)⌉ :=
    Int.ceil_mono (div_le_div_of_nonneg_right hTq hLq.le)
  apply Int.toNat_le_toNat
  exact max_le_max le_rfl this

theorem pageCount_five_two : pageCount 5 2 = 3 := by
  have h := pageCount_eq 5 2 (by norm_num)
  have e : Int.tdiv (5 - 1) 2 = 2 := by decide
  rw [e] at h
  have : (pageCount 5 2 : Int) = 3 := by rw [h]; decide
  exact_mod_cast this

theorem pageCount_two_two : pageCount 2 2 = 1 := by
  have h := pageCount_eq 2 2 (by norm_num)
  have e : Int.tdiv (2 - 1) 2 = 0 := by decide
  rw [e] at h
  have : (pageCount 2 2 : Int) = 1 := by rw [h]; decide
  exact_mod_cast this

/-! ## The traversal as a whole -/

/-- A traversal whose first `n` list requests succeed with total counts inside
the `int` range above its smallest value, where every pass before the n-th
asks for a further page and the n-th does not, returns after exactly `n`
requests with the pages in request order. -/
theorem traversal_stops (σ : Env) (tc : FullTraversingClient) (filter : ProjectsFilter)
    (w : Wire) (pr : Nat → projectsResult) (n fuel : Nat)
    (hL : 0 < tc.Client.Limit) (hn : 1 ≤ n)
    (hok : ∀ k, k < n → listReply σ tc.Client filter w k = .ok (pr k))
    (hrange : ∀ k, k < n → intMin < (pr k).TotalCount ∧ (pr k).TotalCount ≤ intMax)
    (hcont : ∀ k, k + 1 < n →
      ((k : Int) + 1) < 1 + Int.tdiv ((pr k).TotalCount - 1) tc.Client.Limit)
    (hstop : ¬ ((n : Int) < 1 + Int.tdiv ((pr (n - 1)).TotalCount - 1) tc.Client.Limit))
    (hfuel : n ≤ fuel) :
    (tc.ProjectsWithFilter σ fuel filter w).result
        = some (.value ((List.range n).flatMap fun k => (pr k).Projects)) ∧
      ∃ reqs, (tc.ProjectsWithFilter σ fuel filter w).wire.sent = w.sent ++ reqs ∧
        reqs.length = n := by
  rw [ProjectsWithFilter_eq]
  have hcont2 : ∀ k, k + 1 < n →
      ((k : Int) + 1) < maxPageOf (pr k).TotalCount tc.Client.Limit := by
    intro k hk
    rw [maxPageOf_of_range _ _ hL (hrange k (by omega)).1 (hrange k (by omega)).2]
    exact hcont k hk
  have hstop2 : ¬ ((n : Int) < maxPageOf (pr (n - 1)).TotalCount tc.Client.Limit) := by
    rw [maxPageOf_of_range _ _ hL (hrange (n - 1) (by omega)).1 (hrange (n - 1) (by omega)).2]
    exact hstop
  obtain ⟨hres, more, hm, hs⟩ := traverse_pages σ filter tc.Client w hL pr n hok hcont2 hstop2
    (n - 1) 0 (by omega) fuel (by omega) [] [] 1 rfl (by unfold intMax; norm_num)
  have e : n - 1 + 1 = n := by omega
  rw [e] at hres hm
  refine ⟨?_, more, ?_, hm⟩
  · rw [hres, List.range_eq_range']; simp
  · rw [hs]; simp

/-! ## Values are returned on the success status only -/

theorem Project_value (σ : Env) (c : Client) (id : Int) (w : Wire) (p : Project)
    (h : (c.Project σ id w).1 = .ok p) :
    ∃ res, Received (c.Project σ id w).2 w res ∧ res.StatusCode = 200 := by
  have key : ∃ res, Received (c.Project σ id w).2 w res := by
    unfold Client.Project Wire.Get at h ⊢
    cases hn : NewRequest σ "GET"
        (c.endpoint ++ "/projects/" ++ Itoa id ++ ".json?key=" ++ c.apikey) "" with
    | error e => rw [hn] at h; cases h
    | ok out =>
      rw [hn] at h
      simp only [Wire.Do] at h ⊢
      cases hr : w.script w.sent.length out with
      | error e => rw [hr] at h; cases h
      | ok r =>
        refine ⟨r, ?_⟩
        simp only
        split <;> exact (received_iff w out r).2 hr
  obtain ⟨res, hres⟩ := key
  refine ⟨res, hres, ?_⟩
  rw [Project_received σ c id w res hres] at h
  by_contra hne
  rw [if_pos hne] at h
  cases hd : σ.DecodeErrors res.Body <;> rw [hd] at h <;> cases h

theorem getProjects_value (σ : Env) (c : Client) (filter : ProjectsFilter) (w : Wire)
    (p : projectsResult) (h : (c.getProjects σ filter w).1 = .ok p) :
    ∃ res, Received (c.getProjects σ filter w).2 w res ∧ res.StatusCode = 200 := by
  have key : ∃ res, Received (c.getProjects σ filter w).2 w res := by
    rw [getProjects_eq] at h ⊢
    cases hq : c.listRequest σ filter with
    | error e => rw [hq] at h; cases h
    | ok out =>
      rw [hq] at h
      cases hr : w.script w.sent.length out with
      | error e => simp only [hr] at h; cases h
      | ok r => exact ⟨r, (received_iff w out r).2 hr⟩
  obtain ⟨res, hres⟩ := key
  refine ⟨res, hres, ?_⟩
  rw [getProjects_received σ c filter w res hres] at h
  unfold decodeList at h
  by_contra hne
  rw [if_pos hne] at h
  cases hd : σ.DecodeErrors res.Body <;> rw [hd] at h <;> cases h

theorem CreateProject_value (σ : Env) (c : Client) (project : Project) (w : Wire)
    (p : Project) (h : (c.CreateProject σ project w).1 = .ok p) :
    ∃ res, Received (c.CreateProject σ project w).2 w res ∧ res.StatusCode = 201 := by
  have key : ∃ res, Received (c.CreateProject σ project w).2 w res := by
    unfold Client.CreateProject at h ⊢
    cases hm : σ.Marshal ⟨project⟩ with
    | error e => rw [hm] at h; cases h
    | ok s =>
      rw [hm] at h
      simp only at h ⊢
      cases hn : NewRequest σ "POST" (c.endpoint ++ "/projects.json?key=" ++ c.apikey) s with
      | error e => rw [hn] at h; cases h
      | ok req =>
        rw [hn] at h
        simp only [Client.Do, Wire.Do] at h ⊢
        generalize c.outgoing _ = out at h ⊢
        cases hr : w.script w.sent.length out with
        | error e => rw [hr] at h; cases h
        | ok r =>
          refine ⟨r, ?_⟩
          simp only
          split <;> exact (received_iff w out r).2 hr
  obtain ⟨res, hres⟩ := key
  refine ⟨res, hres, ?_⟩
  rw [CreateProject_received σ c project w res hres] at h
  by_contra hne
  rw [if_pos hne] at h
  cases hd : σ.DecodeErrors res.Body <;> rw [hd] at h <;> cases h

/-! ## Claims on `client.go` -/

/-- C3: for a client whose endpoint parses and a filter without a limit or
offset pair of its own, `URLWithFilter` renders the filter extended by the
pair `limit` = decimal `Limit` exactly when `Limit` is non-negative and by the
pair `offset` = decimal `Offset` exactly when `Offset` is non-negative; at the
sentinel -1 the pair is absent, and every other pair is the filter's own. -/
theorem URLWithFilter_pagination_pairs (σ : Env) (c : Client) (path : String) (f : Filter)
    (u : URL) (hparse : σ.Parse c.endpoint = .ok u)
    (hl : ∀ v, ("limit", v) ∉ f.pairs) (ho : ∀ v, ("offset", v) ∉ f.pairs) :
    c.URLWithFilter σ path f
        = .ok (σ.URLString { u with Path := u.Path ++ path,
                                    RawQuery := σ.ToURLParams (c.paginate f) }) ∧
      (∀ v, ("limit", v) ∈ (c.paginate f).pairs ↔ 0 ≤ c.Limit ∧ v = Itoa c.Limit) ∧
      (∀ v, ("offset", v) ∈ (c.paginate f).pairs ↔ 0 ≤ c.Offset ∧ v = Itoa c.Offset) ∧
      (c.Limit = -1 → ∀ v, ("limit", v) ∉ (c.paginate f).pairs) ∧
      (c.Offset = -1 → ∀ v, ("offset", v) ∉ (c.paginate f).pairs) ∧
      (∀ p, p.1 ≠ "limit" → p.1 ≠ "offset" → (p ∈ (c.paginate f).pairs ↔ p ∈ f.pairs)) := by
  have hlim : ∀ v, ("limit", v) ∈ (c.paginate f).pairs ↔ 0 ≤ c.Limit ∧ v = Itoa c.Limit := by
    intro v
    unfold Client.paginate Filter.AddPair
    by_cases h1 : c.Limit > -1 <;> by_cases h2 : c.Offset > -1 <;>
      simp [h1, h2, hl v] <;> omega
  have hoff : ∀ v, ("offset", v) ∈ (c.paginate f).pairs ↔ 0 ≤ c.Offset ∧ v = Itoa c.Offset := by
    intro v
    unfold Client.paginate Filter.AddPair
    by_cases h1 : c.Limit > -1 <;> by_cases h2 : c.Offset > -1 <;>
      simp [h1, h2, ho v] <;> omega
  refine ⟨?_, hlim, hoff, ?_, ?_, ?_⟩
  · unfold Client.URLWithFilter
    rw [hparse]
  · intro h v hv
    have := ((hlim v).1 hv).1
    omega
  · intro h v hv
    have := ((hoff v).1 hv).1
    omega
  · rintro ⟨k, v⟩ h1 h2
    simp only at h1 h2
    unfold Client.paginate Filter.AddPair
    by_cases h3 : c.Limit > -1 <;> by_cases h4 : c.Offset > -1 <;> simp [h3, h4, h1, h2]

/-- C3, worked instance: limit 25, offset 50 and a status filter; then the
same client with both fields at the sentinel. -/
theorem URLWithFilter_pagination_pairs_witness :
    sampleClient.URLWithFilter sampleEnv "/projects.json" ⟨[("status", "1")]⟩
        = .ok "http://example.test/projects.json?status=1&limit=25&offset=50" ∧
      (∀ v, ("limit", v) ∈ (sampleClient.paginate ⟨[("status", "1")]⟩).pairs ↔
        (0 : Int) ≤ 25 ∧ v = "25") ∧
      (NewClient "http://example.test" "secret").URLWithFilter sampleEnv "/projects.json"
        ⟨[("status", "1")]⟩ = .ok "http://example.test/projects.json?status=1" := by
  have h := URLWithFilter_pagination_pairs sampleEnv sampleClient "/projects.json"
    ⟨[("status", "1")]⟩ ⟨"", "http://example.test", "", ""⟩ rfl (by simp) (by simp)
  exact ⟨rfl, h.2.1, rfl⟩

/-- C9, as stated, fails on a request that already carries an impersonation
header: a client fresh from `NewClient`, on which `SwitchUser` was never
called, sends the header the request came with. -/
theorem Do_keeps_own_header_counterexample :
    (NewClient "http://example.test" "secret").switchUser = "" ∧
      (((NewClient "http://example.test" "secret").Do (answering ⟨200, ""⟩)
          ⟨"GET", "http://example.test/projects.json",
            [("X-Redmine-Switch-User", "bob")], ""⟩).2.sent.map fun r => r.Header)
        = [[("X-Redmine-Switch-User", "bob"), ("X-Redmine-API-Key", "secret")]] := by
  exact ⟨rfl, rfl⟩

/-- C9 (amended): `Client.Do` hands the request to the underlying client with
the header `X-Redmine-API-Key` = the configured key added to the headers the
request came with and, exactly when the stored login is non-empty, the header
`X-Redmine-Switch-User` = that login added, the rest of the request untouched;
so an impersonation header is sent exactly when the request came with one or
the stored login is non-empty. `SwitchUser` stores its argument (the last call
wins) and changes no other field; both constructors store the empty login. -/
theorem Do_attaches_headers (c : Client) (w : Wire) (req : Request)
    (userLogin other endpoint apikey : String) :
    (∃ out, (c.Do w req).2.sent = w.sent ++ [out] ∧
        (c.Do w req).1 = w.script w.sent.length out ∧
        out.Method = req.Method ∧ out.URL = req.URL ∧ out.Body = req.Body ∧
        out.Header = req.Header ++ ("X-Redmine-API-Key", c.apikey) ::
          (if c.switchUser = "" then [] else [("X-Redmine-Switch-User", c.switchUser)]) ∧
        ("X-Redmine-API-Key", c.apikey) ∈ out.Header ∧
        (∀ v, ("X-Redmine-Switch-User", v) ∈ out.Header ↔
          ("X-Redmine-Switch-User", v) ∈ req.Header ∨ (c.switchUser ≠ "" ∧ v = c.switchUser))) ∧
      c.SwitchUser userLogin = ⟨c.endpoint, c.apikey, userLogin, c.Limit, c.Offset⟩ ∧
      (c.SwitchUser other).SwitchUser userLogin = c.SwitchUser userLogin ∧
      (NewClient endpoint apikey).switchUser = "" ∧
      (NewFullTraversingClient endpoint apikey).Client.switchUser = "" := by
  refine ⟨⟨c.outgoing req, rfl, rfl, ?_⟩, rfl, rfl, rfl, rfl⟩
  unfold Client.outgoing Header.Add
  by_cases hs : c.switchUser = ""
  · simp [hs]
  · simp [hs]

/-! ## Claims on the resource operations -/

/-- C4: when `UpdateProject` or `DeleteProject` has made its exchange and the
response has status 404, the result is the error "Not Found" whatever the
body is; when the status is 200, the result is no error. -/
theorem update_delete_status (σ : Env) (c : Client) (project : Project) (id : Int)
    (w : Wire) (res : Response) :
    (Received (c.UpdateProject σ project w).2 w res →
      (res.StatusCode = 404 → (c.UpdateProject σ project w).1 = .error "Not Found") ∧
      (res.StatusCode = 200 → (c.UpdateProject σ project w).1 = .ok ())) ∧
    (Received (c.DeleteProject σ id w).2 w res →
      (res.StatusCode = 404 → (c.DeleteProject σ id w).1 = .error "Not Found") ∧
      (res.StatusCode = 200 → (c.DeleteProject σ id w).1 = .ok ())) := by
  constructor
  · intro h
    rw [UpdateProject_received σ c project w res h]
    constructor
    · intro h404; rw [if_pos h404]
    · intro h200
      rw [if_neg (by omega), if_neg (by simpa using h200)]
  · intro h
    rw [DeleteProject_received σ c id w res h]
    constructor
    · intro h404; rw [if_pos h404]
    · intro h200
      rw [if_neg (by omega), if_neg (by simpa using h200)]

/-- C4, worked instance: status 404 with a body that is a valid error
envelope, on update and on delete. -/
theorem update_delete_status_witness :
    Received (sampleClient.UpdateProject sampleEnv (sampleProject 7 "alpha")
        (answering ⟨404, errorBody⟩)).2 (answering ⟨404, errorBody⟩) ⟨404, errorBody⟩ ∧
      (sampleClient.UpdateProject sampleEnv (sampleProject 7 "alpha")
        (answering ⟨404, errorBody⟩)).1 = .error "Not Found" ∧
      Received (sampleClient.DeleteProject sampleEnv 7 (answering ⟨404, errorBody⟩)).2
        (answering ⟨404, errorBody⟩) ⟨404, errorBody⟩ ∧
      (sampleClient.DeleteProject sampleEnv 7 (answering ⟨404, errorBody⟩)).1
        = .error "Not Found" := by
  have h := update_delete_status sampleEnv sampleClient (sampleProject 7 "alpha") 7
    (answering ⟨404, errorBody⟩) ⟨404, errorBody⟩
  have r1 : Received (sampleClient.UpdateProject sampleEnv (sampleProject 7 "alpha")
      (answering ⟨404, errorBody⟩)).2 (answering ⟨404, errorBody⟩) ⟨404, errorBody⟩ :=
    ⟨_, rfl, rfl⟩
  have r2 : Received (sampleClient.DeleteProject sampleEnv 7 (answering ⟨404, errorBody⟩)).2
      (answering ⟨404, errorBody⟩) ⟨404, errorBody⟩ := ⟨_, rfl, rfl⟩
  exact ⟨r1, (h.1 r1).1 rfl, r2, (h.2 r2).1 rfl⟩

/-- C5: for `Project`, `getProjects` and `CreateProject`, when the exchange
has been made and the status is not the success code (200, 200, 201): an
error body that decodes to the strings `es` gives the error `es` joined by
newline, an error body that does not decode gives the decode error; and a
value is returned only on a response with exactly the success code. -/
theorem error_envelope_on_other_status (σ : Env) (c : Client) (id : Int)
    (filter : ProjectsFilter) (project : Project) (w : Wire) (res : Response) :
    (Received (c.Project σ id w).2 w res → res.StatusCode ≠ 200 →
      (∀ es, σ.DecodeErrors res.Body = .ok ⟨es⟩ →
        (c.Project σ id w).1 = .error (Join es "\n")) ∧
      (∀ e, σ.DecodeErrors res.Body = .error e → (c.Project σ id w).1 = .error e)) ∧
    (Received (c.getProjects σ filter w).2 w res → res.StatusCode ≠ 200 →
      (∀ es, σ.DecodeErrors res.Body = .ok ⟨es⟩ →
        (c.getProjects σ filter w).1 = .error (Join es "\n")) ∧
      (∀ e, σ.DecodeErrors res.Body = .error e → (c.getProjects σ filter w).1 = .error e)) ∧
    (Received (c.CreateProject σ project w).2 w res → res.StatusCode ≠ 201 →
      (∀ es, σ.DecodeErrors res.Body = .ok ⟨es⟩ →
        (c.CreateProject σ project w).1 = .error (Join es "\n")) ∧
      (∀ e, σ.DecodeErrors res.Body = .error e →
        (c.CreateProject σ project w).1 = .error e)) ∧
    (∀ p, (c.Project σ id w).1 = .ok p →
      ∃ r, Received (c.Project σ id w).2 w r ∧ r.StatusCode = 200) ∧
    (∀ p, (c.getProjects σ filter w).1 = .ok p →
      ∃ r, Received (c.getProjects σ filter w).2 w r ∧ r.StatusCode = 200) ∧
    (∀ p, (c.CreateProject σ project w).1 = .ok p →
      ∃ r, Received (c.CreateProject σ project w).2 w r ∧ r.StatusCode = 201) := by
  refine ⟨?_, ?_, ?_, Project_value σ c id w, getProjects_value σ c filter w,
    CreateProject_value σ c project w⟩
  · intro h hne
    rw [Project_received σ c id w res h, if_pos hne]
    exact ⟨fun es hd => by rw [hd], fun e hd => by rw [hd]⟩
  · intro h hne
    rw [getProjects_received σ c filter w res h]
    unfold decodeList
    rw [if_pos hne]
    exact ⟨fun es hd => by rw [hd], fun e hd => by rw [hd]⟩
  · intro h hne
    rw [CreateProject_received σ c project w res h, if_pos hne]
    exact ⟨fun es hd => by rw [hd], fun e hd => by rw [hd]⟩

/-- C5, worked instance: status 422 with an error envelope of two messages,
on each of the three operations. -/
theorem error_envelope_on_other_status_witness :
    (sampleClient.Project sampleEnv 7 (answering ⟨422, errorBody⟩)).1
        = .error "Name cannot be blank\nIdentifier is invalid" ∧
      (sampleClient.getProjects sampleEnv NewProjectsFilter (answering ⟨422, errorBody⟩)).1
        = .error "Name cannot be blank\nIdentifier is invalid" ∧
      (sampleClient.CreateProject sampleEnv (sampleProject 7 "alpha")
        (answering ⟨422, errorBody⟩)).1
        = .error "Name cannot be blank\nIdentifier is invalid" := by
  have h := error_envelope_on_other_status sampleEnv sampleClient 7 NewProjectsFilter
    (sampleProject 7 "alpha") (answering ⟨422, errorBody⟩) ⟨422, errorBody⟩
  exact ⟨(h.1 ⟨_, rfl, rfl⟩ (by decide)).1 _ rfl,
    (h.2.1 ⟨_, rfl, rfl⟩ (by decide)).1 _ rfl,
    (h.2.2.1 ⟨_, rfl, rfl⟩ (by decide)).1 _ rfl⟩

/-- C6, as stated, fails: on status 200 with an empty body, which no decoder
accepts, `UpdateProject` and `DeleteProject` report success. -/
theorem update_delete_ignore_body_counterexample :
    sampleEnv.DecodeErrors "" = .error "EOF" ∧
      sampleEnv.DecodeProjectRequest "" = .error "EOF" ∧
      Received (sampleClient.UpdateProject sampleEnv (sampleProject 7 "alpha")
        (answering ⟨200, ""⟩)).2 (answering ⟨200, ""⟩) ⟨200, ""⟩ ∧
      (sampleClient.UpdateProject sampleEnv (sampleProject 7 "alpha")
        (answering ⟨200, ""⟩)).1 = .ok () ∧
      (sampleClient.DeleteProject sampleEnv 7 (answering ⟨200, "not json"⟩)).1 = .ok () := by
  exact ⟨rfl, rfl, ⟨_, rfl, rfl⟩, rfl, rfl⟩

/-- C6 (amended): for `Project`, `getProjects` and `CreateProject`, when the
response carries the success status and its body does not decode, the
operation fails with the decode error; `UpdateProject` and `DeleteProject`
do not read the body of a response with status 200 and report no error. -/
theorem undecodable_success_body (σ : Env) (c : Client) (id : Int)
    (filter : ProjectsFilter) (project : Project) (w : Wire) (res : Response) (e : String) :
    (Received (c.Project σ id w).2 w res → res.StatusCode = 200 →
      σ.DecodeProject res.Body = .error e → (c.Project σ id w).1 = .error e) ∧
    (Received (c.getProjects σ filter w).2 w res → res.StatusCode = 200 →
      σ.DecodeProjects res.Body = .error e → (c.getProjects σ filter w).1 = .error e) ∧
    (Received (c.CreateProject σ project w).2 w res → res.StatusCode = 201 →
      σ.DecodeProjectRequest res.Body = .error e →
      (c.CreateProject σ project w).1 = .error e) ∧
    (Received (c.UpdateProject σ project w).2 w res → res.StatusCode = 200 →
      (c.UpdateProject σ project w).1 = .ok ()) ∧
    (Received (c.DeleteProject σ id w).2 w res → res.StatusCode = 200 →
      (c.DeleteProject σ id w).1 = .ok ()) := by
  refine ⟨?_, ?_, ?_, ?_, ?_⟩
  · intro h h200 hd
    rw [Project_received σ c id w res h, if_neg (by simpa using h200), hd]
  · intro h h200 hd
    rw [getProjects_received σ c filter w res h]
    unfold decodeList
    rw [if_neg (by simpa using h200), hd]
  · intro h h201 hd
    rw [CreateProject_received σ c project w res h, if_neg (by simpa using h201), hd]
  · intro h h200
    rw [UpdateProject_received σ c project w res h, if_neg (by omega),
      if_neg (by simpa using h200)]
  · intro h h200
    rw [DeleteProject_received σ c id w res h, if_neg (by omega),
      if_neg (by simpa using h200)]

/-- C6 (amended), worked instance: an empty body on the success status of
each operation. -/
theorem undecodable_success_body_witness :
    (sampleClient.Project sampleEnv 7 (answering ⟨200, ""⟩)).1 = .error "EOF" ∧
      (sampleClient.getProjects sampleEnv NewProjectsFilter (answering ⟨200, ""⟩)).1
        = .error "EOF" ∧
      (sampleClient.DeleteProject sampleEnv 7 (answering ⟨200, ""⟩)).1 = .ok () := by
  have h := undecodable_success_body sampleEnv sampleClient 7 NewProjectsFilter
    (sampleProject 7 "alpha") (answering ⟨200, ""⟩) ⟨200, ""⟩ "EOF"
  exact ⟨h.1 ⟨_, rfl, rfl⟩ rfl rfl, h.2.1 ⟨_, rfl, rfl⟩ rfl rfl,
    h.2.2.2.2 ⟨_, rfl, rfl⟩ rfl⟩

/-! ## Claims on the traversal -/

/-- C1, as stated, fails at the smallest total count: with page size 2 and
every page reporting -9223372036854775808, `max(1, ceil(T / L))` is 1, yet
after the first request the loop goes on and issues a second one. -/
theorem traversal_uniform_total_counterexample :
    pageCount (-9223372036854775808) 2 = 1 ∧
      (∀ k, listReply sampleEnv { sampleClient with Limit := 2 } NewProjectsFilter
        (answering ⟨200, pageBody [] (-9223372036854775808)⟩) k
          = .ok ⟨[], ⟨-9223372036854775808, 2, 0⟩⟩) ∧
      ((FullTraversingClient.ProjectsWithFilter sampleEnv 2 ⟨{ sampleClient with Limit := 2 }⟩
        NewProjectsFilter (answering ⟨200, pageBody [] (-9223372036854775808)⟩)).wire.sent.map
          fun r => r.URL)
        = ["http://example.test/projects.json?limit=2&offset=0",
           "http://example.test/projects.json?limit=2&offset=2"] := by
  refine ⟨?_, ?_, by decide⟩
  · have h := pageCount_eq (-9223372036854775808) 2 (by norm_num)
    have e : Int.tdiv (-9223372036854775808 - 1) 2 = -4611686018427387904 := by decide
    rw [e] at h
    have : (pageCount (-9223372036854775808) 2 : Int) = 1 := by rw [h]; decide
    exact_mod_cast this
  · intro k
    rfl

/-- C1 (amended): for a page size `L > 0` and a total count `T` with
`-2^63 < T ≤ 2^63 - 1` reported by every page, when the list requests succeed
the traversal returns after exactly `max(1, ceil(T / L))` requests, and its
result is the concatenation, in request order, of the projects of the pages
it received. -/
theorem traversal_uniform_total (σ : Env) (tc : FullTraversingClient)
    (filter : ProjectsFilter) (w : Wire) (T : Int) (pr : Nat → projectsResult) (fuel : Nat)
    (hL : 0 < tc.Client.Limit) (hmin : intMin < T) (hmax : T ≤ intMax)
    (hok : ∀ k, k < pageCount T tc.Client.Limit →
      listReply σ tc.Client filter w k = .ok (pr k) ∧ (pr k).TotalCount = T)
    (hfuel : pageCount T tc.Client.Limit ≤ fuel) :
    (tc.ProjectsWithFilter σ fuel filter w).result
        = some (.value ((List.range (pageCount T tc.Client.Limit)).flatMap
            fun k => (pr k).Projects)) ∧
      ∃ reqs, (tc.ProjectsWithFilter σ fuel filter w).wire.sent = w.sent ++ reqs ∧
        reqs.length = pageCount T tc.Client.Limit := by
  have hpos := pageCount_pos T tc.Client.Limit
  have heq := pageCount_eq T tc.Client.Limit hL
  apply traversal_stops σ tc filter w pr (pageCount T tc.Client.Limit) fuel hL hpos
    (fun k hk => (hok k hk).1)
  · intro k hk
    rw [(hok k hk).2]
    exact ⟨hmin, hmax⟩
  · intro k hk
    rw [(hok k (by omega)).2]
    rcases le_total 1 (1 + Int.tdiv (T - 1) tc.Client.Limit) with h | h
    · rw [max_eq_right h] at heq; omega
    · rw [max_eq_left h] at heq; omega
  · rw [(hok (pageCount T tc.Client.Limit - 1) (by omega)).2]
    rcases le_total 1 (1 + Int.tdiv (T - 1) tc.Client.Limit) with h | h
    · rw [max_eq_right h] at heq; omega
    · rw [max_eq_left h] at heq; omega
  · exact hfuel

/-- C1 (amended), worked instances: total count 2 with page size 2 is one
request and the two projects; total count 5 with page size 2 is three
requests and the five projects in the order served. -/
theorem traversal_uniform_total_witness :
    ((0 : Int) < 2 ∧ intMin < 5 ∧ (5 : Int) ≤ intMax) ∧
      ((FullTraversingClient.ProjectsWithFilter sampleEnv 3 ⟨{ sampleClient with Limit := 2 }⟩
          NewProjectsFilter (serving [pageBody [1, 2] 5, pageBody [3, 4] 5, pageBody [5] 5])).result
        = some (.value [sampleProject 1 "p1", sampleProject 2 "p2", sampleProject 3 "p3",
            sampleProject 4 "p4", sampleProject 5 "p5"]) ∧
        ∃ reqs,
          (FullTraversingClient.ProjectsWithFilter sampleEnv 3
            ⟨{ sampleClient with Limit := 2 }⟩ NewProjectsFilter
            (serving [pageBody [1, 2] 5, pageBody [3, 4] 5, pageBody [5] 5])).wire.sent
            = [] ++ reqs ∧ reqs.length = 3) ∧
      (FullTraversingClient.ProjectsWithFilter sampleEnv 1 ⟨{ sampleClient with Limit := 2 }⟩
          NewProjectsFilter (serving [pageBody [1, 2] 2])).result
        = some (.value [sampleProject 1 "p1", sampleProject 2 "p2"]) := by
  have h := traversal_uniform_total sampleEnv ⟨{ sampleClient with Limit := 2 }⟩
    NewProjectsFilter (serving [pageBody [1, 2] 5, pageBody [3, 4] 5, pageBody [5] 5]) 5
    (fun k => match k with
      | 0 => ⟨[sampleProject 1 "p1", sampleProject 2 "p2"], ⟨5, 2, 0⟩⟩
      | 1 => ⟨[sampleProject 3 "p3", sampleProject 4 "p4"], ⟨5, 2, 2⟩⟩
      | _ => ⟨[sampleProject 5 "p5"], ⟨5, 2, 4⟩⟩)
    3 (by decide) (by decide) (by decide)
    (by
      intro k hk
      rw [pageCount_five_two] at hk
      interval_cases k <;> exact ⟨rfl, rfl⟩)
    (by rw [pageCount_five_two])
  have g := traversal_uniform_total sampleEnv ⟨{ sampleClient with Limit := 2 }⟩
    NewProjectsFilter (serving [pageBody [1, 2] 2]) 2
    (fun _ => ⟨[sampleProject 1 "p1", sampleProject 2 "p2"], ⟨2, 2, 0⟩⟩)
    1 (by decide) (by decide) (by decide)
    (by
      intro k hk
      rw [pageCount_two_two] at hk
      interval_cases k
      exact ⟨rfl, rfl⟩)
    (by rw [pageCount_two_two])
  rw [pageCount_five_two] at h
  rw [pageCount_two_two] at g
  exact ⟨⟨by decide, by decide, by decide⟩, h, g.1⟩

/-- C10, as stated, fails at the smallest total count: with page size 4 and
every page reporting -9223372036854775808, the least `k >= 1` with
`k >= 1 + (T_k - 1) / L` is 1 and every total is at most 0, for which
`max(1, ceil(0 / 4))` is 1, yet the loop is still running after two requests. -/
theorem traversal_varying_totals_counterexample :
    (1 : Int) ≥ 1 + Int.tdiv (-9223372036854775808 - 1) 4 ∧
      pageCount 0 4 = 1 ∧
      (∀ k, listReply sampleEnv { sampleClient with Limit := 4 } NewProjectsFilter
        (answering ⟨200, pageBody [] (-9223372036854775808)⟩) k
          = .ok ⟨[], ⟨-9223372036854775808, 2, 0⟩⟩) ∧
      (FullTraversingClient.ProjectsWithFilter sampleEnv 2 ⟨{ sampleClient with Limit := 4 }⟩
        NewProjectsFilter (answering ⟨200, pageBody [] (-9223372036854775808)⟩)).result
          = none ∧
      (FullTraversingClient.ProjectsWithFilter sampleEnv 2 ⟨{ sampleClient with Limit := 4 }⟩
        NewProjectsFilter
          (answering ⟨200, pageBody [] (-9223372036854775808)⟩)).wire.sent.length = 2 := by
  refine ⟨by decide, ?_, fun k => rfl, by decide, by decide⟩
  have h := pageCount_eq 0 4 (by norm_num)
  have e : Int.tdiv (0 - 1) 4 = 0 := by decide
  rw [e] at h
  have : (pageCount 0 4 : Int) = 1 := by rw [h]; decide
  exact_mod_cast this

/-- C10 (amended): for a page size `L > 0`, when the list requests succeed
with total counts `T_1, T_2, ...` (which may differ) that lie in
`-2^63 < T_k ≤ 2^63 - 1` and are at most `B`, the traversal returns after
exactly `n` requests, where `n` is the least `k >= 1` with
`k >= 1 + (T_k - 1) / L` (quotient truncated toward zero), and
`n <= max(1, ceil(B / L))`; its result is the pages received, in order. -/
theorem traversal_varying_totals (σ : Env) (tc : FullTraversingClient)
    (filter : ProjectsFilter) (w : Wire) (pr : Nat → projectsResult) (B : Int)
    (hL : 0 < tc.Client.Limit)
    (hok : ∀ k, k < pageCount B tc.Client.Limit →
      listReply σ tc.Client filter w k = .ok (pr k) ∧
        intMin < (pr k).TotalCount ∧ (pr k).TotalCount ≤ intMax ∧ (pr k).TotalCount ≤ B) :
    ∃ n : Nat, 1 ≤ n ∧ n ≤ pageCount B tc.Client.Limit ∧
      (n : Int) ≥ 1 + Int.tdiv ((pr (n - 1)).TotalCount - 1) tc.Client.Limit ∧
      (∀ k : Nat, 1 ≤ k → k < n →
        (k : Int) < 1 + Int.tdiv ((pr (k - 1)).TotalCount - 1) tc.Client.Limit) ∧
      ∀ fuel, n ≤ fuel →
        (tc.ProjectsWithFilter σ fuel filter w).result
            = some (.value ((List.range n).flatMap fun k => (pr k).Projects)) ∧
          ∃ reqs, (tc.ProjectsWithFilter σ fuel filter w).wire.sent = w.sent ++ reqs ∧
            reqs.length = n := by
  classical
  have hbpos := pageCount_pos B tc.Client.Limit
  have hex : ∃ k : Nat, 1 ≤ k ∧
      (k : Int) ≥ 1 + Int.tdiv ((pr (k - 1)).TotalCount - 1) tc.Client.Limit := by
    refine ⟨pageCount B tc.Client.Limit, hbpos, ?_⟩
    obtain ⟨_, _, _, hB⟩ := hok (pageCount B tc.Client.Limit - 1) (by omega)
    have hm := pageCount_mono _ B tc.Client.Limit hB hL
    have he := pageCount_eq (pr (pageCount B tc.Client.Limit - 1)).TotalCount
      tc.Client.Limit hL
    have := le_max_right (1 : Int)
      (1 + Int.tdiv ((pr (pageCount B tc.Client.Limit - 1)).TotalCount - 1) tc.Client.Limit)
    omega
  have hle : Nat.find hex ≤ pageCount B tc.Client.Limit := by
    apply Nat.find_min' hex
    refine ⟨hbpos, ?_⟩
    obtain ⟨_, _, _, hB⟩ := hok (pageCount B tc.Client.Limit - 1) (by omega)
    have hm := pageCount_mono _ B tc.Client.Limit hB hL
    have he := pageCount_eq (pr (pageCount B tc.Client.Limit - 1)).TotalCount
      tc.Client.Limit hL
    have := le_max_right (1 : Int)
      (1 + Int.tdiv ((pr (pageCount B tc.Client.Limit - 1)).TotalCount - 1) tc.Client.Limit)
    omega
  obtain ⟨hn1, hn2⟩ := Nat.find_spec hex
  have hmin : ∀ k : Nat, 1 ≤ k → k < Nat.find hex →
      (k : Int) < 1 + Int.tdiv ((pr (k - 1)).TotalCount - 1) tc.Client.Limit := by
    intro k hk1 hk2
    have := Nat.find_min hex hk2
    by_contra hc
    exact this ⟨hk1, by omega⟩
  refine ⟨Nat.find hex, hn1, hle, hn2, hmin, ?_⟩
  intro fuel hfuel
  apply traversal_stops σ tc filter w pr (Nat.find hex) fuel hL hn1
    (fun k hk => (hok k (by omega)).1)
    (fun k hk => ⟨(hok k (by omega)).2.1, (hok k (by omega)).2.2.1⟩)
  · intro k hk
    have := hmin (k + 1) (by omega) hk
    simpa using this
  · omega
  · exact hfuel

/-- C10 (amended), worked instance: page size 2, a total count of 5 on the
first page and of 3 on the second: the traversal ends after two requests,
one short of the three that a constant total of 5 takes. -/
theorem traversal_varying_totals_witness :
    (0 : Int) < 2 ∧
      (∃ n : Nat, 1 ≤ n ∧ n ≤ 3 ∧
        ∀ fuel, n ≤ fuel →
          ∃ reqs,
            (FullTraversingClient.ProjectsWithFilter sampleEnv fuel
              ⟨{ sampleClient with Limit := 2 }⟩ NewProjectsFilter
              (serving [pageBody [1, 2] 5, pageBody [3] 3, pageBody [5] 5])).wire.sent
              = [] ++ reqs ∧ reqs.length = n) ∧
      (FullTraversingClient.ProjectsWithFilter sampleEnv 3 ⟨{ sampleClient with Limit := 2 }⟩
          NewProjectsFilter (serving [pageBody [1, 2] 5, pageBody [3] 3, pageBody [5] 5])).result
        = some (.value [sampleProject 1 "p1", sampleProject 2 "p2", sampleProject 3 "p3"]) ∧
      (FullTraversingClient.ProjectsWithFilter sampleEnv 3 ⟨{ sampleClient with Limit := 2 }⟩
          NewProjectsFilter
          (serving [pageBody [1, 2] 5, pageBody [3] 3, pageBody [5] 5])).wire.sent.length
        = 2 := by
  obtain ⟨n, h1, h2, _, _, h5⟩ := traversal_varying_totals sampleEnv
    ⟨{ sampleClient with Limit := 2 }⟩ NewProjectsFilter
    (serving [pageBody [1, 2] 5, pageBody [3] 3, pageBody [5] 5])
    (fun k => match k with
      | 0 => ⟨[sampleProject 1 "p1", sampleProject 2 "p2"], ⟨5, 2, 0⟩⟩
      | 1 => ⟨[sampleProject 3 "p3"], ⟨3, 2, 2⟩⟩
      | _ => ⟨[sampleProject 5 "p5"], ⟨5, 2, 4⟩⟩)
    5 (by decide)
    (by
      intro k hk
      rw [pageCount_five_two] at hk
      interval_cases k <;> exact ⟨rfl, by decide, by decide, by decide⟩)
  rw [pageCount_five_two] at h2
  exact ⟨by decide, ⟨n, h1, h2, fun fuel hf => (h5 fuel hf).2⟩, by decide, by decide⟩

theorem outgoing_method_url (c : Client) (r : Request) :
    (c.outgoing r).Method = r.Method ∧ (c.outgoing r).URL = r.URL := by
  unfold Client.outgoing
  split <;> exact ⟨rfl, rfl⟩

/-- The URL of a list request: the endpoint with the path appended and the
filter, extended by the pagination pairs, as the query. -/
theorem listRequest_url (σ : Env) (c : Client) (filter : ProjectsFilter) (out : Request)
    (h : c.listRequest σ filter = .ok out) :
    ∃ u, σ.Parse c.endpoint = .ok u ∧ out.Method = "GET" ∧
      out.URL = σ.URLString { u with Path := u.Path ++ "/projects.json",
                                     RawQuery := σ.ToURLParams (c.paginate filter.Filter) } := by
  unfold Client.listRequest at h
  cases hu : c.URLWithFilter σ "/projects.json" filter.Filter with
  | error e => rw [hu] at h; cases h
  | ok uri =>
    rw [hu] at h
    simp only at h
    cases hn : NewRequest σ "GET" uri "" with
    | error e => rw [hn] at h; cases h
    | ok req =>
      rw [hn] at h
      simp only at h
      injection h with h
      have hreq : req = ⟨"GET", uri, [], ""⟩ := by
        unfold NewRequest at hn
        cases hq : σ.Parse uri with
        | error e => rw [hq] at hn; cases hn
        | ok v => rw [hq] at hn; injection hn with hn; exact hn.symm
      unfold Client.URLWithFilter at hu
      cases hp : σ.Parse c.endpoint with
      | error e => rw [hp] at hu; cases hu
      | ok u =>
        rw [hp] at hu
        injection hu with hu
        refine ⟨u, rfl, ?_, ?_⟩
        · rw [← h, (outgoing_method_url c _).1, hreq]
        · rw [← h, (outgoing_method_url c _).2, hreq, ← hu]

theorem paginate_of_nonneg (c : Client) (f : Filter) (hl : 0 ≤ c.Limit) (ho : 0 ≤ c.Offset) :
    c.paginate f = ⟨f.pairs ++ [("limit", Itoa c.Limit), ("offset", Itoa c.Offset)]⟩ := by
  unfold Client.paginate Filter.AddPair
  have h1 : c.Limit > -1 := by omega
  have h2 : c.Offset > -1 := by omega
  simp [h1, h2]

/-- C2: for a page size `L > 0` and whatever `Offset` held before the call,
however far the traversal runs, its k-th request (counting from 0) is the
list request built from limit `L` and offset `k * L`: a GET of the endpoint
path with the filter pairs followed by `limit` = `L` and `offset` = `k * L`. -/
theorem traversal_request_offsets (σ : Env) (tc : FullTraversingClient)
    (filter : ProjectsFilter) (w : Wire) (fuel : Nat) (hL : 0 < tc.Client.Limit) :
    ∃ reqs, (tc.ProjectsWithFilter σ fuel filter w).wire.sent = w.sent ++ reqs ∧
      reqs.length ≤ fuel ∧
      ∀ k (hk : k < reqs.length),
        Client.listRequest σ { tc.Client with Offset := (k : Int) * tc.Client.Limit } filter
            = .ok (reqs.get ⟨k, hk⟩) ∧
          ∃ u, σ.Parse tc.Client.endpoint = .ok u ∧ (reqs.get ⟨k, hk⟩).Method = "GET" ∧
            (reqs.get ⟨k, hk⟩).URL
              = σ.URLString { u with
                  Path := u.Path ++ "/projects.json",
                  RawQuery := σ.ToURLParams ⟨filter.Filter.pairs ++
                    [("limit", Itoa tc.Client.Limit),
                     ("offset", Itoa ((k : Int) * tc.Client.Limit))]⟩ } := by
  rw [ProjectsWithFilter_eq]
  obtain ⟨more, hm, hs, hreq⟩ := traverse_requests σ filter tc.Client w hL fuel 0 [] [] 1 rfl
    (by unfold intMax; norm_num)
  refine ⟨more, by rw [hs]; simp, hm, ?_⟩
  intro k hk
  have hq := hreq k hk
  rw [Nat.zero_add] at hq
  refine ⟨hq, ?_⟩
  obtain ⟨u, hu, hmeth, hurl⟩ := listRequest_url σ _ filter _ hq
  refine ⟨u, hu, hmeth, ?_⟩
  have hoff : (0 : Int) ≤ (k : Int) * tc.Client.Limit :=
    Int.mul_nonneg (Int.ofNat_nonneg k) hL.le
  rw [hurl, paginate_of_nonneg { tc.Client with Offset := (k : Int) * tc.Client.Limit }
    filter.Filter hL.le hoff]

/-- C2, worked instance: total count 5 with page size 2, on a client whose
offset was 50 before the call: three requests, at the offsets 0, 2 and 4. -/
theorem traversal_request_offsets_witness :
    (0 : Int) < 2 ∧
      (∃ reqs,
        (FullTraversingClient.ProjectsWithFilter sampleEnv 10
          ⟨{ sampleClient with Limit := 2 }⟩ NewProjectsFilter
          (serving [pageBody [1, 2] 5, pageBody [3, 4] 5, pageBody [5] 5])).wire.sent
          = [] ++ reqs ∧ reqs.length ≤ 10) ∧
      sampleClient.Offset = 50 ∧
      ((FullTraversingClient.ProjectsWithFilter sampleEnv 10
          ⟨{ sampleClient with Limit := 2 }⟩ NewProjectsFilter
          (serving [pageBody [1, 2] 5, pageBody [3, 4] 5, pageBody [5] 5])).wire.sent.map
            fun r => r.URL)
        = ["http://example.test/projects.json?limit=2&offset=0",
           "http://example.test/projects.json?limit=2&offset=2",
           "http://example.test/projects.json?limit=2&offset=4"] := by
  obtain ⟨reqs, h1, h2, _⟩ := traversal_request_offsets sampleEnv
    ⟨{ sampleClient with Limit := 2 }⟩ NewProjectsFilter
    (serving [pageBody [1, 2] 5, pageBody [3, 4] 5, pageBody [5] 5]) 10 (by decide)
  exact ⟨by decide, ⟨reqs, h1, h2⟩, rfl, by decide⟩

/-- C7: the code does not do what the claim says. With a page size of 0 and a
first list request that succeeds, the traversal runs into the division by
zero and ends in a run-time panic, after having sent the request. -/
theorem traversal_limit_zero_panics :
    (FullTraversingClient.ProjectsWithFilter sampleEnv 1 ⟨{ sampleClient with Limit := 0 }⟩
        NewProjectsFilter (answering ⟨200, pageBody [1, 2] 2⟩)).result
      = some (.panic "runtime error: integer divide by zero") ∧
      ((FullTraversingClient.ProjectsWithFilter sampleEnv 1 ⟨{ sampleClient with Limit := 0 }⟩
        NewProjectsFilter (answering ⟨200, pageBody [1, 2] 2⟩)).wire.sent.map fun r => r.URL)
      = ["http://example.test/projects.json?limit=0&offset=0"] := by
  exact ⟨by decide, by decide⟩

/-- C8: for a page size `L > 0`, when the list requests number 0 to k - 1
succeed and each asks for a further page, and request number k fails with the
error `e`, the traversal ends with `e` and without projects, and it has sent
the requests up to number k and none after it. -/
theorem traversal_aborts_on_failure (σ : Env) (tc : FullTraversingClient)
    (filter : ProjectsFilter) (w : Wire) (pr : Nat → projectsResult) (k fuel : Nat)
    (e : String) (hL : 0 < tc.Client.Limit)
    (hok : ∀ j, j < k → listReply σ tc.Client filter w j = .ok (pr j) ∧
      ((j : Int) + 1) < maxPageOf (pr j).TotalCount tc.Client.Limit)
    (hfail : listReply σ tc.Client filter w k = .error e) (hfuel : k + 1 ≤ fuel) :
    (tc.ProjectsWithFilter σ fuel filter w).result = some (.error e) ∧
      ∃ reqs, (tc.ProjectsWithFilter σ fuel filter w).wire.sent = w.sent ++ reqs ∧
        k ≤ reqs.length ∧ reqs.length ≤ k + 1 := by
  rw [ProjectsWithFilter_eq]
  obtain ⟨hres, more, h1, h2, hs⟩ := traverse_fail σ filter tc.Client w hL pr k e
    (fun j hj => (hok j hj).1) (fun j hj => (hok j hj).2) hfail k 0 (Nat.zero_add k) fuel hfuel
    [] [] 1 rfl (by unfold intMax; norm_num)
  exact ⟨hres, more, by rw [hs]; simp, h1, h2⟩

/-- C8, worked instance: page size 2, a first page that reports a total of 5
and a connection that fails on the second request: the error is returned,
two requests were sent, and the first page is not part of the result. -/
theorem traversal_aborts_on_failure_witness :
    (0 : Int) < 2 ∧
      (FullTraversingClient.ProjectsWithFilter sampleEnv 5 ⟨{ sampleClient with Limit := 2 }⟩
          NewProjectsFilter (serving [pageBody [1, 2] 5])).result
        = some (.error "connection refused") ∧
      (FullTraversingClient.ProjectsWithFilter sampleEnv 5 ⟨{ sampleClient with Limit := 2 }⟩
          NewProjectsFilter (serving [pageBody [1, 2] 5])).wire.sent.length = 2 := by
  have h := traversal_aborts_on_failure sampleEnv ⟨{ sampleClient with Limit := 2 }⟩
    NewProjectsFilter (serving [pageBody [1, 2] 5])
    (fun _ => ⟨[sampleProject 1 "p1", sampleProject 2 "p2"], ⟨5, 2, 0⟩⟩) 1 5
    "connection refused" (by decide)
    (by
      intro j hj
      interval_cases j
      exact ⟨rfl, by decide⟩)
    rfl (by decide)
  exact ⟨by decide, h.1, by decide⟩

end Redmine
